import Mathlib

/-!
Verification development for the knowledge-graph core of the `agents_child`
repository (`src/agent/knowledge/knowledge_graph.py` and
`src/agent/knowledge/reasoning_engine.py`).

The Python code is shallowly embedded: Python dicts become insertion-ordered
association lists (`alGet`/`alSet`/`alErase` mirror `d[k]`, `d[k] = v`,
`del d[k]`), Python sets become duplicate-free lists (`setAdd`/`setDiscard`),
floats become exact rationals (all score constants are decimal literals, so
no rounding is lost), `datetime.now(...)` becomes an explicit `now : Nat`
argument threaded by the caller, and raising `ValueError` becomes returning
`none` alongside the state reached at the raise point (Python exceptions do
not roll back mutations already performed on `self`).
-/

namespace AgentsChild

/-! ## Association lists: Python `dict` semantics (insertion ordered) -/

/-- `d.get(k)`: first binding of `k` (keys are unique in a Python dict). -/
def alGet {α : Type} (k : String) : List (String × α) → Option α
  | [] => none
  | (k', v) :: rest => if k' == k then some v else alGet k rest

/-- `d[k] = v`: update in place (position kept), append when the key is new. -/
def alSet {α : Type} (k : String) (v : α) : List (String × α) → List (String × α)
  | [] => [(k, v)]
  | (k', v') :: rest => if k' == k then (k, v) :: rest else (k', v') :: alSet k v rest

/-- `del d[k]` (also used to model `dict.clear` piecewise). -/
def alErase {α : Type} (k : String) (l : List (String × α)) : List (String × α) :=
  l.filter (fun p => p.1 != k)

/-- `k in d`. -/
def alHasKey {α : Type} (k : String) (l : List (String × α)) : Bool :=
  (alGet k l).isSome

/-! ## Python `set` of strings as a duplicate-free list -/

/-- `s.add(x)`. -/
def setAdd (x : String) (l : List String) : List String :=
  if l.contains x then l else l ++ [x]

/-- `s.discard(x)`. -/
def setDiscard (x : String) (l : List String) : List String :=
  l.filter (fun y => y != x)

/-! ## Python string primitives: `str.lower` and the `in` operator -/

/-- `needle` occurs at the start of `hay`. -/
def startsWithCh : List Char → List Char → Bool
  | _, [] => true
  | [], _ :: _ => false
  | h :: hs, n :: ns => h == n && startsWithCh hs ns

/-- `needle in hay` for `List Char`. -/
def containsSub : List Char → List Char → Bool
  | [], needle => needle.isEmpty
  | c :: hs, needle => startsWithCh (c :: hs) needle || containsSub hs needle

/-- Python `needle in hay` on strings. -/
def pyIn (needle hay : String) : Bool :=
  containsSub hay.toList needle.toList

/-- Python `s.lower()`. -/
def lowerStr (s : String) : String :=
  String.mk (s.toList.map Char.toLower)

/-! ## Stable sorting: Python `list.sort(key=…, reverse=True)`

Python's sort is stable; with `reverse=True` elements that compare equal keep
their original relative order.  An insertion sort that inserts each element
before the first already-placed element it is `le`-related to reproduces this
exactly when `le a b` is "`a` must come no later than `b`". -/

def insertSorted {α : Type} (le : α → α → Bool) (x : α) : List α → List α
  | [] => [x]
  | y :: ys => if le x y then x :: y :: ys else y :: insertSorted le x ys

def stableSort {α : Type} (le : α → α → Bool) (l : List α) : List α :=
  l.foldr (insertSorted le) []

/-- Python `min(iterable, key=f)`: the first element attaining the minimum. -/
def argminBy {α : Type} (f : α → ℚ) : List α → Option α
  | [] => none
  | x :: xs => some (xs.foldl (fun best y => if f y < f best then y else best) x)

/-! ## Data model (`knowledge_graph.py`, lines 131–198)

Entity and relation records exactly as built by `add_entity`/`add_relation`.
Attribute maps are string→string association lists (spec §9 models attribute
values as a small closed set of kinds; only their string form is ever used by
the code under verification, via `str(attr_value)`). -/

structure Entity where
  id : String
  name : String
  type : String
  attributes : List (String × String)
  description : String
  importance : ℚ
  createdAt : Nat
  lastAccessed : Nat
  accessCount : Nat
  confidence : ℚ
  deriving Repr, DecidableEq

structure Relation where
  id : String
  source : String
  target : String
  type : String
  attributes : List (String × String)
  importance : ℚ
  confidence : ℚ
  createdAt : Nat
  bidirectional : Bool
  deriving Repr, DecidableEq

/-- One edge of the `networkx.MultiDiGraph`: keyed by relation id, carrying the
relation payload (`graph.add_edge(source, target, key=…, **relation)`). -/
structure Edge where
  source : String
  target : String
  key : String
  data : Relation
  deriving Repr, DecidableEq

/-- The store state: `self.entities`, `self.relations`, the graph (nodes and
keyed edges), the two secondary indexes, and the capacity configuration
(`config.max_entities` / `config.max_relations`).  Node attribute payloads of
the `networkx` graph are never read by any code under verification, so nodes
are carried as their ids. -/
structure KnowledgeGraph where
  entities : List (String × Entity)
  relations : List (String × Relation)
  graphNodes : List String
  graphEdges : List Edge
  type_index : List (String × List String)
  attribute_index : List (String × List (String × List String))
  maxEntities : Nat
  maxRelations : Nat
  deriving Repr, DecidableEq

/-- A fresh store for a given capacity configuration (`__init__` with no
persisted state on disk). -/
def emptyKG (maxEntities maxRelations : Nat) : KnowledgeGraph :=
  { entities := [], relations := [], graphNodes := [], graphEdges := []
    type_index := [], attribute_index := []
    maxEntities := maxEntities, maxRelations := maxRelations }

/-! ## Graph primitives (`networkx.MultiDiGraph`) -/

/-- The edge-list update behind `add_edge`: replaces the data of an existing
`(u, v, k)` edge, otherwise appends a new edge. -/
def edgeListSet (u v k : String) (data : Relation) : List Edge → List Edge
  | [] => [⟨u, v, k, data⟩]
  | e :: es =>
      if e.source == u && e.target == v && e.key == k then ⟨u, v, k, data⟩ :: es
      else e :: edgeListSet u v k data es

/-- `graph.add_edge(u, v, key=k, **data)`; missing endpoints are added as
nodes. -/
def addEdge (s : KnowledgeGraph) (u v k : String) (data : Relation) : KnowledgeGraph :=
  { s with graphEdges := edgeListSet u v k data s.graphEdges
           graphNodes := setAdd v (setAdd u s.graphNodes) }

/-- `graph.has_edge(u, v, key=k)`. -/
def hasEdge (g : List Edge) (u v k : String) : Bool :=
  g.any (fun e => e.source == u && e.target == v && e.key == k)

/-- `graph.remove_edge(u, v, key=k)`. -/
def removeEdge (g : List Edge) (u v k : String) : List Edge :=
  g.filter (fun e => !(e.source == u && e.target == v && e.key == k))

/-! ## Payloads

`add_entity`/`add_relation` accept duck-typed dicts and read each field with
`payload.get(key, default)`; a missing key is `none` here and the defaults are
applied inside the operations, exactly where the source applies them. -/

structure EntityPayload where
  id : Option String := none
  name : Option String := none
  type : Option String := none
  attributes : Option (List (String × String)) := none
  description : Option String := none
  importance : Option ℚ := none
  confidence : Option ℚ := none
  deriving Repr

structure RelationPayload where
  source : Option String := none
  target : Option String := none
  type : Option String := none
  attributes : Option (List (String × String)) := none
  importance : Option ℚ := none
  confidence : Option ℚ := none
  bidirectional : Option Bool := none
  deriving Repr

/-- `entity_data.get("id") or f"entity_{timestamp}"`: Python `or` also
replaces an explicit empty string (falsy). -/
def resolveEntityId (now : Nat) (p : EntityPayload) : String :=
  match p.id with
  | some i => if i == "" then "entity_" ++ Nat.repr now else i
  | none => "entity_" ++ Nat.repr now

/-! ## Store operations (`knowledge_graph.py`) -/

/-- One attribute pair of `_update_entity_indexes` (lines 239–244): create
the missing maps/sets and add the id to `attribute_index[attr][value]`. -/
def attrIndexAdd (entity_id : String)
    (ai : List (String × List (String × List String))) (av : String × String) :
    List (String × List (String × List String)) :=
  let m := (alGet av.1 ai).getD []
  let bucket := (alGet av.2 m).getD []
  alSet av.1 (alSet av.2 (setAdd entity_id bucket) m) ai

/-- The type-index part of `_update_entity_indexes` (lines 232–236): create
the set if missing and add the id. -/
def typeIndexAdd (entity_id t0 : String) (ti : List (String × List String)) :
    List (String × List String) :=
  match alGet t0 ti with
  | some bucket => alSet t0 (setAdd entity_id bucket) ti
  | none => alSet t0 (setAdd entity_id []) ti

/-- `_update_entity_indexes` (lines 229–244). -/
def updateEntityIndexes (entity_id : String) (entity : Entity) (s : KnowledgeGraph) :
    KnowledgeGraph :=
  let ti := typeIndexAdd entity_id entity.type s.type_index
  let ai := entity.attributes.foldl (attrIndexAdd entity_id) s.attribute_index
  { s with type_index := ti, attribute_index := ai }

/-- `remove_relation` (lines 478–501).  Returns the post state and the Python
return value.  Persistence (`_save_knowledge_graph`) is I/O and out of scope. -/
def remove_relation (relation_id : String) (s : KnowledgeGraph) :
    KnowledgeGraph × Bool :=
  match alGet relation_id s.relations with
  | none => (s, false)
  | some relation =>
      let g := if hasEdge s.graphEdges relation.source relation.target relation_id
               then removeEdge s.graphEdges relation.source relation.target relation_id
               else s.graphEdges
      let reverse_id := "reverse_" ++ relation_id
      let g := if hasEdge g relation.target relation.source reverse_id
               then removeEdge g relation.target relation.source reverse_id
               else g
      ({ s with graphEdges := g, relations := alErase relation_id s.relations }, true)

/-- The type-index part of `remove_entity`'s cleanup (lines 449–451):
discard the id from `type_index[t0]` when the key exists. -/
def typeIndexDiscard (entity_id t0 : String) (ti : List (String × List String)) :
    List (String × List String) :=
  match alGet t0 ti with
  | some bucket => alSet t0 (setDiscard entity_id bucket) ti
  | none => ti

/-- One attribute pair of `remove_entity`'s index cleanup (lines 453–456):
discard the id from `attribute_index[attr][value]` when both keys exist. -/
def attrIndexDiscard (entity_id : String)
    (ai : List (String × List (String × List String))) (av : String × String) :
    List (String × List (String × List String)) :=
  match alGet av.1 ai with
  | some m =>
      match alGet av.2 m with
      | some bucket => alSet av.1 (alSet av.2 (setDiscard entity_id bucket) m) ai
      | none => ai
  | none => ai

/-- `remove_entity` (lines 440–476): drops index entries for the entity's
current type and attributes, cascades `remove_relation` over every relation
incident to the entity, removes the graph node (and with it any remaining
incident edges), and deletes the record. -/
def remove_entity (entity_id : String) (s : KnowledgeGraph) :
    KnowledgeGraph × Bool :=
  match alGet entity_id s.entities with
  | none => (s, false)
  | some entity =>
      let ti := typeIndexDiscard entity_id entity.type s.type_index
      let ai := entity.attributes.foldl (attrIndexDiscard entity_id) s.attribute_index
      let s := { s with type_index := ti, attribute_index := ai }
      let relationsToRemove :=
        (s.relations.filter (fun kv => kv.2.source == entity_id || kv.2.target == entity_id)).map
          Prod.fst
      let s := relationsToRemove.foldl (fun s rid => (remove_relation rid s).1) s
      let s := if s.graphNodes.contains entity_id
               then { s with
                        graphNodes := setDiscard entity_id s.graphNodes
                        graphEdges := s.graphEdges.filter
                          (fun e => !(e.source == entity_id || e.target == entity_id)) }
               else s
      ({ s with entities := alErase entity_id s.entities }, true)

/-- The eviction score of `_remove_least_important_entity`:
`importance * (1 + access_count * 0.1)`. -/
def entityEvictionScore (e : Entity) : ℚ :=
  e.importance * (1 + (e.accessCount : ℚ) * (1 / 10))

/-- `_remove_least_important_entity` (lines 246–258): `min` over the entity
map in iteration order, keyed by the eviction score (Python `min` keeps the
first minimum), then a full `remove_entity`. -/
def removeLeastImportantEntity (s : KnowledgeGraph) : KnowledgeGraph :=
  match argminBy (fun kv => entityEvictionScore kv.2) s.entities with
  | none => s
  | some kv => (remove_entity kv.1 s).1

/-- `_remove_least_important_relation` (lines 260–271). -/
def removeLeastImportantRelation (s : KnowledgeGraph) : KnowledgeGraph :=
  match argminBy (fun kv => kv.2.importance) s.relations with
  | none => s
  | some kv => (remove_relation kv.1 s).1

/-- `add_entity` (lines 131–168).  Returns the post state and the new id. -/
def add_entity (now : Nat) (p : EntityPayload) (s : KnowledgeGraph) :
    KnowledgeGraph × String :=
  let s := if s.entities.length ≥ s.maxEntities then removeLeastImportantEntity s else s
  let entity_id := resolveEntityId now p
  let entity : Entity :=
    { id := entity_id
      name := p.name.getD ""
      type := p.type.getD "unknown"
      attributes := p.attributes.getD []
      description := p.description.getD ""
      importance := p.importance.getD (1 / 2)
      createdAt := now
      lastAccessed := now
      accessCount := 0
      confidence := p.confidence.getD 1 }
  let s := { s with entities := alSet entity_id entity s.entities
                    graphNodes := setAdd entity_id s.graphNodes }
  let s := updateEntityIndexes entity_id entity s
  (s, entity_id)

/-- `add_relation` (lines 170–227).  The capacity check (and possible
eviction) runs *before* the endpoint validation, exactly as in the source;
the `ValueError` raise is the `none` branch and keeps the state reached at
that point. -/
def add_relation (now : Nat) (p : RelationPayload) (s : KnowledgeGraph) :
    KnowledgeGraph × Option String :=
  let s := if s.relations.length ≥ s.maxRelations then removeLeastImportantRelation s else s
  let sourceOk := match p.source with | some i => alHasKey i s.entities | none => false
  let targetOk := match p.target with | some i => alHasKey i s.entities | none => false
  if sourceOk && targetOk then
    let source_id := p.source.getD ""
    let target_id := p.target.getD ""
    let relation_id := "rel_" ++ Nat.repr now
    let relation : Relation :=
      { id := relation_id
        source := source_id
        target := target_id
        type := p.type.getD "related_to"
        attributes := p.attributes.getD []
        importance := p.importance.getD (1 / 2)
        confidence := p.confidence.getD 1
        createdAt := now
        bidirectional := p.bidirectional.getD false }
    let s := { s with relations := alSet relation_id relation s.relations }
    let s := addEdge s source_id target_id relation_id relation
    let s :=
      if relation.bidirectional then
        let rev := { relation with
                       source := target_id, target := source_id
                       id := "reverse_" ++ relation_id }
        addEdge s target_id source_id rev.id rev
      else s
    (s, some relation_id)
  else
    (s, none)

/-- `get_entity` (lines 273–282): refreshes `last_accessed`, increments
`access_count` on the stored record, and returns a copy. -/
def get_entity (now : Nat) (entity_id : String) (s : KnowledgeGraph) :
    Option Entity × KnowledgeGraph :=
  match alGet entity_id s.entities with
  | some entity =>
      let entity' := { entity with lastAccessed := now, accessCount := entity.accessCount + 1 }
      (some entity', { s with entities := alSet entity_id entity' s.entities })
  | none => (none, s)

/-! ## Query engine (`query`, lines 289–352)

Query results are heterogeneous Python dicts (`{**entity, "type": "entity",
"relevance": …}`), modelled as association lists over a dynamic value type. -/

inductive Value where
  | str (s : String)
  | rat (q : ℚ)
  | nat (n : Nat)
  | bool (b : Bool)
  | none
  | attrs (l : List (String × String))
  | dict (l : List (String × Value))
  deriving Repr

mutual

def Value.beq : Value → Value → Bool
  | .str a, .str b => a == b
  | .rat a, .rat b => a == b
  | .nat a, .nat b => a == b
  | .bool a, .bool b => a == b
  | .none, .none => true
  | .attrs a, .attrs b => a == b
  | .dict a, .dict b => Value.beqDict a b
  | _, _ => false

def Value.beqDict : List (String × Value) → List (String × Value) → Bool
  | [], [] => true
  | (k, v) :: r, (k', v') :: r' => k == k' && Value.beq v v' && Value.beqDict r r'
  | _, _ => false

end

instance : BEq Value := ⟨Value.beq⟩

mutual

theorem Value.eq_of_beq : ∀ {a b : Value}, Value.beq a b = true → a = b
  | .str _, .str _, h => by
      simpa [Value.beq] using congrArg Value.str (by simpa [Value.beq] using h : _ = _)
  | .rat _, .rat _, h => by
      exact congrArg Value.rat (by simpa [Value.beq] using h)
  | .nat _, .nat _, h => by
      exact congrArg Value.nat (by simpa [Value.beq] using h)
  | .bool _, .bool _, h => by
      exact congrArg Value.bool (by simpa [Value.beq] using h)
  | .none, .none, _ => rfl
  | .attrs _, .attrs _, h => by
      exact congrArg Value.attrs (by simpa [Value.beq] using h)
  | .dict a, .dict b, h => by
      exact congrArg Value.dict (Value.eqDict_of_beqDict (by simpa [Value.beq] using h))
  | .str _, .rat _, h => by simp [Value.beq] at h
  | .str _, .nat _, h => by simp [Value.beq] at h
  | .str _, .bool _, h => by simp [Value.beq] at h
  | .str _, .none, h => by simp [Value.beq] at h
  | .str _, .attrs _, h => by simp [Value.beq] at h
  | .str _, .dict _, h => by simp [Value.beq] at h
  | .rat _, .str _, h => by simp [Value.beq] at h
  | .rat _, .nat _, h => by simp [Value.beq] at h
  | .rat _, .bool _, h => by simp [Value.beq] at h
  | .rat _, .none, h => by simp [Value.beq] at h
  | .rat _, .attrs _, h => by simp [Value.beq] at h
  | .rat _, .dict _, h => by simp [Value.beq] at h
  | .nat _, .str _, h => by simp [Value.beq] at h
  | .nat _, .rat _, h => by simp [Value.beq] at h
  | .nat _, .bool _, h => by simp [Value.beq] at h
  | .nat _, .none, h => by simp [Value.beq] at h
  | .nat _, .attrs _, h => by simp [Value.beq] at h
  | .nat _, .dict _, h => by simp [Value.beq] at h
  | .bool _, .str _, h => by simp [Value.beq] at h
  | .bool _, .rat _, h => by simp [Value.beq] at h
  | .bool _, .nat _, h => by simp [Value.beq] at h
  | .bool _, .none, h => by simp [Value.beq] at h
  | .bool _, .attrs _, h => by simp [Value.beq] at h
  | .bool _, .dict _, h => by simp [Value.beq] at h
  | .none, .str _, h => by simp [Value.beq] at h
  | .none, .rat _, h => by simp [Value.beq] at h
  | .none, .nat _, h => by simp [Value.beq] at h
  | .none, .bool _, h => by simp [Value.beq] at h
  | .none, .attrs _, h => by simp [Value.beq] at h
  | .none, .dict _, h => by simp [Value.beq] at h
  | .attrs _, .str _, h => by simp [Value.beq] at h
  | .attrs _, .rat _, h => by simp [Value.beq] at h
  | .attrs _, .nat _, h => by simp [Value.beq] at h
  | .attrs _, .bool _, h => by simp [Value.beq] at h
  | .attrs _, .none, h => by simp [Value.beq] at h
  | .attrs _, .dict _, h => by simp [Value.beq] at h
  | .dict _, .str _, h => by simp [Value.beq] at h
  | .dict _, .rat _, h => by simp [Value.beq] at h
  | .dict _, .nat _, h => by simp [Value.beq] at h
  | .dict _, .bool _, h => by simp [Value.beq] at h
  | .dict _, .none, h => by simp [Value.beq] at h
  | .dict _, .attrs _, h => by simp [Value.beq] at h

theorem Value.eqDict_of_beqDict :
    ∀ {a b : List (String × Value)}, Value.beqDict a b = true → a = b
  | [], [], _ => rfl
  | (k, v) :: r, (k', v') :: r', h => by
      have h' := h
      simp only [Value.beqDict, Bool.and_eq_true] at h'
      obtain ⟨⟨hk, hv⟩, hr⟩ := h'
      have : k = k' := by simpa using hk
      exact this ▸ (Value.eq_of_beq hv) ▸ (Value.eqDict_of_beqDict hr) ▸ rfl
  | [], _ :: _, h => by simp [Value.beqDict] at h
  | _ :: _, [], h => by simp [Value.beqDict] at h

end

mutual

theorem Value.beq_refl : ∀ a : Value, Value.beq a a = true
  | .str _ => by simp [Value.beq]
  | .rat _ => by simp [Value.beq]
  | .nat _ => by simp [Value.beq]
  | .bool _ => by simp [Value.beq]
  | .none => by simp [Value.beq]
  | .attrs _ => by simp [Value.beq]
  | .dict l => by simpa [Value.beq] using Value.beqDict_refl l

theorem Value.beqDict_refl : ∀ a : List (String × Value), Value.beqDict a a = true
  | [] => by simp [Value.beqDict]
  | (_, v) :: r => by
      simp [Value.beqDict, Value.beq_refl v, Value.beqDict_refl r]

end

instance : DecidableEq Value := fun a b =>
  if h : Value.beq a b = true then .isTrue (Value.eq_of_beq h)
  else .isFalse (fun he => h (he ▸ Value.beq_refl a))

instance : LawfulBEq Value where
  eq_of_beq := Value.eq_of_beq
  rfl := Value.beq_refl _

abbrev PyDict := List (String × Value)

/-- The entity record as a dict, keys in construction order (lines 142–153). -/
def entityToDict (e : Entity) : PyDict :=
  [("id", .str e.id), ("name", .str e.name), ("type", .str e.type),
   ("attributes", .attrs e.attributes), ("description", .str e.description),
   ("importance", .rat e.importance), ("created_at", .nat e.createdAt),
   ("last_accessed", .nat e.lastAccessed), ("access_count", .nat e.accessCount),
   ("confidence", .rat e.confidence)]

/-- The relation record as a dict, keys in construction order (lines 188–198). -/
def relationToDict (r : Relation) : PyDict :=
  [("id", .str r.id), ("source", .str r.source), ("target", .str r.target),
   ("type", .str r.type), ("attributes", .attrs r.attributes),
   ("importance", .rat r.importance), ("confidence", .rat r.confidence),
   ("created_at", .nat r.createdAt), ("bidirectional", .bool r.bidirectional)]

/-- The entity relevance accumulation of `query` (lines 296–317), exactly as
the source accumulates it: name, description, one 0.5 step per matching
attribute value (in attribute order), type, then the importance boost. -/
def query_entity_relevance (ql : String) (e : Entity) : ℚ :=
  let relevance : ℚ := 0
  let relevance := if pyIn ql (lowerStr e.name) then relevance + 1 else relevance
  let relevance := if pyIn ql (lowerStr e.description) then relevance + 8 / 10 else relevance
  let relevance := e.attributes.foldl
    (fun acc av => if pyIn ql (lowerStr av.2) then acc + 1 / 2 else acc) relevance
  let relevance := if pyIn ql (lowerStr e.type) then relevance + 3 / 10 else relevance
  relevance + e.importance * (3 / 10)

/-- The relation relevance accumulation of `query` (lines 327–335). -/
def query_relation_relevance (ql : String) (r : Relation) : ℚ :=
  (if pyIn ql (lowerStr r.type) then (8 : ℚ) / 10 else 0) + r.importance * (2 / 10)

/-- `{**entity, "type": "entity", "relevance": relevance}` (lines 320–324). -/
def entityResult (e : Entity) (relevance : ℚ) : PyDict :=
  alSet "relevance" (.rat relevance) (alSet "type" (.str "entity") (entityToDict e))

/-- `self.entities.get(relation[…], {}).get("name", "Unknown")` (lines 339–340). -/
def endpointName (s : KnowledgeGraph) (eid : String) : String :=
  match alGet eid s.entities with
  | some e => e.name
  | none => "Unknown"

/-- `{**relation, "type": "relation", "source_name": …, "target_name": …,
"relevance": …}` (lines 342–348). -/
def relationResult (s : KnowledgeGraph) (r : Relation) (relevance : ℚ) : PyDict :=
  alSet "relevance" (.rat relevance)
    (alSet "target_name" (.str (endpointName s r.target))
      (alSet "source_name" (.str (endpointName s r.source))
        (alSet "type" (.str "relation") (relationToDict r))))

/-- `x["relevance"]` as the sort key (line 351); also `x.get("relevance", 0)`
in the reasoning engine — every record carries a rational there. -/
def relevanceOf (d : PyDict) : ℚ :=
  match alGet "relevance" d with
  | some (.rat q) => q
  | _ => 0

/-- `query` (lines 289–352): score every entity and relation, keep strictly
positive scores, sort all results together descending by relevance (Python's
stable sort), truncate to `limit`. -/
def query (s : KnowledgeGraph) (query_text : String) (limit : Nat) : List PyDict :=
  let ql := lowerStr query_text
  let entityResults :=
    (s.entities.filter (fun kv => decide (0 < query_entity_relevance ql kv.2))).map
      (fun kv => entityResult kv.2 (query_entity_relevance ql kv.2))
  let relationResults :=
    (s.relations.filter (fun kv => decide (0 < query_relation_relevance ql kv.2))).map
      (fun kv => relationResult s kv.2 (query_relation_relevance ql kv.2))
  let results := entityResults ++ relationResults
  (stableSort (fun a b => decide (relevanceOf b ≤ relevanceOf a)) results).take limit

/-! ## Traversal engine (`find_related_entities`, lines 354–404) -/

/-- Successors of `u` in adjacency (edge-insertion) order. -/
def succsOf (edges : List Edge) (u : String) : List String :=
  (edges.filter (fun e => e.source == u)).map (fun e => e.target)

/-- One BFS round plus recursion: `visited` holds `(node, distance)` pairs in
discovery order, `frontier` is the latest layer, `fuel` the remaining depth
budget.  Mirrors `nx.single_source_shortest_path_length(graph, src,
cutoff=…)` on the directed multigraph. -/
def ssplAux (edges : List Edge) :
    List (String × Nat) → List String → Nat → Nat → List (String × Nat)
  | visited, _, _, 0 => visited
  | visited, frontier, d, fuel + 1 =>
      let nextLayer := ((frontier.map (succsOf edges)).flatten).foldl
        (fun acc v =>
          if (visited.map Prod.fst).contains v || acc.contains v then acc else acc ++ [v]) []
      ssplAux edges (visited ++ nextLayer.map (fun v => (v, d + 1))) nextLayer (d + 1) fuel

/-- `nx.single_source_shortest_path_length(self.graph, source, cutoff)`:
every node reachable within `cutoff` directed hops, with its shortest-path
distance, the source itself at distance 0. -/
def single_source_shortest_path_length (edges : List Edge) (source : String)
    (cutoff : Nat) : List (String × Nat) :=
  ssplAux edges [(source, 0)] [source] 0 cutoff

/-- The first BFS layer: the deduplicated successors of `a`, minus `a`
itself — what `ssplAux` computes from the initial frontier `[a]`. -/
def layerOf (edges : List Edge) (a : String) : List String :=
  (succsOf edges a).foldl
    (fun acc v => if [a].contains v || acc.contains v then acc else acc ++ [v]) []

/-- A `find_related_entities` result: the `get_entity` copy with the two keys
`relationship_distance` and `relationship_strength` added (lines 393–397). -/
structure RelatedEntity where
  entity : Entity
  relationship_distance : Nat
  relationship_strength : ℚ
  deriving Repr, DecidableEq

/-- One iteration of the `find_related_entities` loop (lines 365–397): skip
the source itself and ids no longer live, skip too-short paths (`len(path)
< 2` is `path_info + 1 < 2`, since `nx.shortest_path` returns `path_info +
1` nodes), otherwise fetch through `get_entity` — mutating the store — and
annotate with distance and strength. -/
def frelStep (now : Nat) (entity_id : String)
    (st : List RelatedEntity × KnowledgeGraph) (tp : String × Nat) :
    List RelatedEntity × KnowledgeGraph :=
  if tp.1 == entity_id || !(alHasKey tp.1 st.2.entities) then st
  else if tp.2 + 1 < 2 then st
  else
    match get_entity now tp.1 st.2 with
    | (some e, s') => (st.1 ++ [⟨e, tp.2, 1 / ((tp.2 : ℚ) + 1)⟩], s')
    | (none, s') => (st.1, s')

/-- `find_related_entities` (lines 354–404) for the `relation_types=None`
call pattern — the only one any code under verification (and any claim)
exercises; the `relation_types` branch is flagged as ill-defined by the spec
(§4.3/§9) and is not modelled. -/
def find_related_entities (now : Nat) (entity_id : String) (max_depth : Nat)
    (s : KnowledgeGraph) : List RelatedEntity × KnowledgeGraph :=
  if alHasKey entity_id s.entities then
    let pairs := single_source_shortest_path_length s.graphEdges entity_id max_depth
    let out := pairs.foldl (frelStep now entity_id) ([], s)
    (stableSort (fun a b => decide (b.relationship_strength ≤ a.relationship_strength)) out.1,
      out.2)
  else ([], s)

/-- The `for eid in bucket: e = get_entity(eid); if e: collect e` loop shared
by `find_entities_by_type` and `find_entities_by_attribute`. -/
def getEntitiesAcc (now : Nat) : List String → KnowledgeGraph →
    List Entity × KnowledgeGraph
  | [], s => ([], s)
  | eid :: rest, s =>
      match get_entity now eid s with
      | (some e, s') =>
          let (es, s'') := getEntitiesAcc now rest s'
          (e :: es, s'')
      | (Option.none, s') => getEntitiesAcc now rest s'

/-- `find_entities_by_type` (lines 406–420). -/
def find_entities_by_type (now : Nat) (entity_type : String) (limit : Nat)
    (s : KnowledgeGraph) : List Entity × KnowledgeGraph :=
  match alGet entity_type s.type_index with
  | Option.none => ([], s)
  | some bucket =>
      let (es, s') := getEntitiesAcc now bucket s
      ((stableSort (fun a b => decide (b.importance ≤ a.importance)) es).take limit, s')

/-- `find_entities_by_attribute` (lines 422–438). -/
def find_entities_by_attribute (now : Nat) (attribute_name attribute_value : String)
    (limit : Nat) (s : KnowledgeGraph) : List Entity × KnowledgeGraph :=
  match alGet attribute_name s.attribute_index with
  | Option.none => ([], s)
  | some m =>
      match alGet attribute_value m with
      | Option.none => ([], s)
      | some bucket =>
          let (es, s') := getEntitiesAcc now bucket s
          ((stableSort (fun a b => decide (b.importance ≤ a.importance)) es).take limit, s')

/-! ## Serialization (`to_dict`/`from_dict`, lines 548–616) -/

/-- `datetime.isoformat()` modelled by the decimal rendering of the
timestamp: the ISO-8601 string of an aware datetime determines it exactly,
and `datetime.fromisoformat` inverts it losslessly. -/
def isoformat (t : Nat) : String :=
  String.mk (((Nat.digits 10 t).reverse).map (fun d => Char.ofNat (48 + d)))

/-- `datetime.fromisoformat` on a string produced by `isoformat`. -/
def fromisoformat (s : String) : Nat :=
  Nat.ofDigits 10 ((s.toList.map (fun c => c.toNat - 48)).reverse)

/-- `entity.copy()` with both timestamps replaced by their ISO strings
(lines 551–556). -/
structure SerializedEntity where
  id : String
  name : String
  type : String
  attributes : List (String × String)
  description : String
  importance : ℚ
  created_at : String
  last_accessed : String
  access_count : Nat
  confidence : ℚ
  deriving Repr, DecidableEq

def serializeEntity (e : Entity) : SerializedEntity :=
  { id := e.id, name := e.name, type := e.type, attributes := e.attributes
    description := e.description, importance := e.importance
    created_at := isoformat e.createdAt, last_accessed := isoformat e.lastAccessed
    access_count := e.accessCount, confidence := e.confidence }

/-- Loading one entity in `from_dict` (lines 580–584). -/
def parseEntity (se : SerializedEntity) : Entity :=
  { id := se.id, name := se.name, type := se.type, attributes := se.attributes
    description := se.description, importance := se.importance
    createdAt := fromisoformat se.created_at, lastAccessed := fromisoformat se.last_accessed
    accessCount := se.access_count, confidence := se.confidence }

/-- `relation.copy()` with `created_at` replaced by its ISO string
(lines 558–562). -/
structure SerializedRelation where
  id : String
  source : String
  target : String
  type : String
  attributes : List (String × String)
  importance : ℚ
  confidence : ℚ
  created_at : String
  bidirectional : Bool
  deriving Repr, DecidableEq

def serializeRelation (r : Relation) : SerializedRelation :=
  { id := r.id, source := r.source, target := r.target, type := r.type
    attributes := r.attributes, importance := r.importance, confidence := r.confidence
    created_at := isoformat r.createdAt, bidirectional := r.bidirectional }

/-- Loading one relation in `from_dict` (lines 588–591). -/
def parseRelation (sr : SerializedRelation) : Relation :=
  { id := sr.id, source := sr.source, target := sr.target, type := sr.type
    attributes := sr.attributes, importance := sr.importance, confidence := sr.confidence
    createdAt := fromisoformat sr.created_at, bidirectional := sr.bidirectional }

/-- `get_statistics` (lines 528–546).  The two wall-clock fields
(`creation_time`, `last_updated`) are pure bookkeeping never read by any code
path or claim under verification and are not modelled; `np.mean` is the exact
rational mean. -/
structure KGStats where
  total_entities : Nat
  total_relations : Nat
  graph_nodes : Nat
  graph_edges : Nat
  entity_types : Nat
  indexed_attributes : Nat
  average_entity_importance : ℚ
  average_relation_importance : ℚ
  deriving Repr, DecidableEq

def get_statistics (s : KnowledgeGraph) : KGStats :=
  { total_entities := s.entities.length
    total_relations := s.relations.length
    graph_nodes := s.graphNodes.length
    graph_edges := s.graphEdges.length
    entity_types := s.type_index.length
    indexed_attributes := s.attribute_index.length
    average_entity_importance :=
      if s.entities.isEmpty then 0
      else (s.entities.map (fun kv => kv.2.importance)).sum / (s.entities.length : ℚ)
    average_relation_importance :=
      if s.relations.isEmpty then 0
      else (s.relations.map (fun kv => kv.2.importance)).sum / (s.relations.length : ℚ) }

/-- The `to_dict` output (lines 564–573): serialized entity and relation
maps, both indexes with their sets rendered as lists, and the statistics. -/
structure KGDict where
  entities : List (String × SerializedEntity)
  relations : List (String × SerializedRelation)
  type_index : List (String × List String)
  attribute_index : List (String × List (String × List String))
  statistics : KGStats
  deriving Repr, DecidableEq

def to_dict (s : KnowledgeGraph) : KGDict :=
  { entities := s.entities.map (fun kv => (kv.1, serializeEntity kv.2))
    relations := s.relations.map (fun kv => (kv.1, serializeRelation kv.2))
    type_index := s.type_index
    attribute_index := s.attribute_index
    statistics := get_statistics s }

/-- `from_dict` (lines 575–616): clears and reloads both maps, takes the
indexes from the data (`set(v)` over the stored lists), rebuilds the graph
with one node per entity and one edge per relation record (so reverse edges
of bidirectional relations, which exist only in the graph, are not
recreated).  The capacity configuration is not part of the data and is kept. -/
def from_dict (s : KnowledgeGraph) (data : KGDict) : KnowledgeGraph :=
  let entities := data.entities.map (fun kv => (kv.1, parseEntity kv.2))
  let relations := data.relations.map (fun kv => (kv.1, parseRelation kv.2))
  let base : KnowledgeGraph :=
    { s with entities := entities, relations := relations
             type_index := data.type_index, attribute_index := data.attribute_index
             graphNodes := [], graphEdges := [] }
  let withNodes :=
    entities.foldl (fun g kv => { g with graphNodes := setAdd kv.1 g.graphNodes }) base
  relations.foldl (fun g kv => addEdge g kv.2.source kv.2.target kv.2.id kv.2) withNodes

/-! ## Reasoning engine (`reasoning_engine.py`) -/

structure Rule where
  id : String
  name : String
  premises : List String
  conclusion : String
  confidence : ℚ
  type : String
  deriving Repr, DecidableEq

structure RulePayload where
  id : Option String := Option.none
  name : Option String := Option.none
  premises : Option (List String) := Option.none
  conclusion : Option String := Option.none
  confidence : Option ℚ := Option.none
  type : Option String := Option.none
  deriving Repr

structure ReasoningEngine where
  knowledge_graph : KnowledgeGraph
  reasoning_rules : List Rule
  inference_cache : List (String × List PyDict)
  deriving Repr, DecidableEq

/-- `add_rule` (lines 19–32 of `reasoning_engine.py`). -/
def add_rule (now : Nat) (p : RulePayload) (re : ReasoningEngine) : ReasoningEngine :=
  let rule : Rule :=
    { id := p.id.getD ("rule_" ++ Nat.repr now)
      name := p.name.getD ""
      premises := p.premises.getD []
      conclusion := p.conclusion.getD ""
      confidence := p.confidence.getD 1
      type := p.type.getD "forward" }
  { re with reasoning_rules := re.reasoning_rules ++ [rule] }

/-- `_apply_rules` (lines 73–98): one inference record per rule any of whose
premises is a substring of the lower-cased query. -/
def applyRules (rules : List Rule) (query_text : String) : List PyDict :=
  let ql := lowerStr query_text
  (rules.filter (fun r => r.premises.any (fun prem => pyIn (lowerStr prem) ql))).map
    (fun r =>
      [("id", .str ("inference_" ++ r.id)), ("type", .str "inference"),
       ("content", .str r.conclusion), ("rule_applied", .str r.name),
       ("confidence", .rat r.confidence), ("relevance", .rat (7 / 10)),
       ("reasoning_type", .str "rule_based")])

/-- One graph-based inference record (lines 120–131). -/
def graphInference (er : PyDict) (entity_id : String) (rel : RelatedEntity) : PyDict :=
  [("id", .str ("graph_inference_" ++ entity_id ++ "_" ++ rel.entity.id)),
   ("type", .str "graph_inference"),
   ("content", .str (((fun v => match v with | Value.str n => n | _ => "Entity")
      ((alGet "name" er).getD (Value.str "Entity"))) ++ " is related to " ++ rel.entity.name)),
   ("source_entity", (alGet "name" er).getD Value.none),
   ("target_entity", .str rel.entity.name),
   ("relationship_strength", .rat rel.relationship_strength),
   ("relationship_distance", .nat rel.relationship_distance),
   ("confidence", .rat rel.relationship_strength),
   ("relevance", .rat (rel.relationship_strength * (8 / 10))),
   ("reasoning_type", .str "graph_based")]

/-- `_graph_reasoning` (lines 100–134): query the store for the lower-cased
text, and for every entity-typed result traverse from it (mutating the store
through `get_entity`) and synthesize one inference per related entity. -/
def graphReasoning (now : Nat) (query_text : String) (max_depth : Nat)
    (kg : KnowledgeGraph) : List PyDict × KnowledgeGraph :=
  let ql := lowerStr query_text
  let query_results := query kg ql 10
  query_results.foldl
    (fun (st : List PyDict × KnowledgeGraph) er =>
      if alGet "type" er == some (Value.str "entity") then
        let entity_id := match alGet "id" er with | some (Value.str i) => i | _ => ""
        let (related, kg') := find_related_entities now entity_id max_depth st.2
        (st.1 ++ related.map (graphInference er entity_id), kg')
      else st)
    ([], kg)

/-- `result.get("id", str(result))`: the dedup key of `infer`; `str(result)`
is content-determined, modelled by the record itself. -/
def idKeyOf (d : PyDict) : Value :=
  (alGet "id" d).getD (Value.dict d)

/-- The dedup loop of `infer` (lines 57–64): first occurrence of each id wins. -/
def dedupById (seen : List Value) : List PyDict → List PyDict
  | [] => []
  | d :: rest =>
      if seen.contains (idKeyOf d) then dedupById seen rest
      else d :: dedupById (idKeyOf d :: seen) rest

/-- `f"{query}_{max_depth}"`. -/
def cacheKey (query_text : String) (max_depth : Nat) : String :=
  query_text ++ "_" ++ Nat.repr max_depth

/-- `infer` (lines 34–71): return the cached list when the key is present
(touching nothing); otherwise combine direct query results, rule inferences
and graph inferences, de-duplicate by id, sort descending by relevance,
cache and return the top 10. -/
def infer (now : Nat) (query_text : String) (max_depth : Nat) (re : ReasoningEngine) :
    List PyDict × ReasoningEngine :=
  let key := cacheKey query_text max_depth
  match alGet key re.inference_cache with
  | some cached => (cached, re)
  | Option.none =>
      let direct := query re.knowledge_graph query_text 10
      let ruleResults := applyRules re.reasoning_rules query_text
      let (graphResults, kg') := graphReasoning now query_text max_depth re.knowledge_graph
      let unique := dedupById [] (direct ++ ruleResults ++ graphResults)
      let sorted := stableSort (fun a b => decide (relevanceOf b ≤ relevanceOf a)) unique
      let top := sorted.take 10
      (top, { re with knowledge_graph := kg'
                      inference_cache := alSet key top re.inference_cache })

/-! ## Operation sequences -/

/-- The Graph Store mutators, for quantifying over call sequences (eviction
is part of the two insert operations, as in the source). -/
inductive KGOp where
  | addE (now : Nat) (p : EntityPayload)
  | addR (now : Nat) (p : RelationPayload)
  | remE (id : String)
  | remR (id : String)

def applyKGOp (s : KnowledgeGraph) : KGOp → KnowledgeGraph
  | .addE now p => (add_entity now p s).1
  | .addR now p => (add_relation now p s).1
  | .remE id => (remove_entity id s).1
  | .remR id => (remove_relation id s).1

def runOps (s : KnowledgeGraph) (ops : List KGOp) : KnowledgeGraph :=
  ops.foldl applyKGOp s

/-- Everything a caller can do to the system between two `infer` calls:
graph mutations, rule additions, reads and other inferences. -/
inductive AgentOp where
  | addE (now : Nat) (p : EntityPayload)
  | addR (now : Nat) (p : RelationPayload)
  | remE (id : String)
  | remR (id : String)
  | addRule (now : Nat) (p : RulePayload)
  | getE (now : Nat) (id : String)
  | inferOp (now : Nat) (q : String) (d : Nat)

def execAgentOp (re : ReasoningEngine) : AgentOp → ReasoningEngine
  | .addE now p => { re with knowledge_graph := (add_entity now p re.knowledge_graph).1 }
  | .addR now p => { re with knowledge_graph := (add_relation now p re.knowledge_graph).1 }
  | .remE id => { re with knowledge_graph := (remove_entity id re.knowledge_graph).1 }
  | .remR id => { re with knowledge_graph := (remove_relation id re.knowledge_graph).1 }
  | .addRule now p => add_rule now p re
  | .getE now id => { re with knowledge_graph := (get_entity now id re.knowledge_graph).2 }
  | .inferOp now q d => (infer now q d re).2

def execAgentOps (re : ReasoningEngine) (ops : List AgentOp) : ReasoningEngine :=
  ops.foldl execAgentOp re

/-! ## Spec-side query (for the refinement claim about `query`)

Modelled from the spec's words (§4.2): "relevance = 1.0 if `text` is a
substring of `name` (case-insensitive) + 0.8 if substring of `description`
+ 0.5 per attribute value containing `text` + 0.3 if substring of `type`,
plus `importance × 0.3`; entities scoring 0 are excluded", relations
analogously with 0.8/`importance × 0.2`, "all matching results — entities
and relations together — are sorted descending by relevance and truncated to
`limit`" (same stable descending sort; the spec flags the tie-break as the
implementation's iteration order). -/

def spec_entity_relevance (ql : String) (e : Entity) : ℚ :=
  (if pyIn ql (lowerStr e.name) then (1 : ℚ) else 0)
    + (if pyIn ql (lowerStr e.description) then (8 : ℚ) / 10 else 0)
    + ((e.attributes.filter (fun av => pyIn ql (lowerStr av.2))).length : ℚ) * (1 / 2)
    + (if pyIn ql (lowerStr e.type) then (3 : ℚ) / 10 else 0)
    + e.importance * (3 / 10)

def spec_relation_relevance (ql : String) (r : Relation) : ℚ :=
  (if pyIn ql (lowerStr r.type) then (8 : ℚ) / 10 else 0) + r.importance * (2 / 10)

def specQuery (s : KnowledgeGraph) (query_text : String) (limit : Nat) : List PyDict :=
  let ql := lowerStr query_text
  let entityResults :=
    (s.entities.filter (fun kv => decide (spec_entity_relevance ql kv.2 ≠ 0))).map
      (fun kv => entityResult kv.2 (spec_entity_relevance ql kv.2))
  let relationResults :=
    (s.relations.filter (fun kv => decide (spec_relation_relevance ql kv.2 ≠ 0))).map
      (fun kv => relationResult s kv.2 (spec_relation_relevance ql kv.2))
  (stableSort (fun a b => decide (relevanceOf b ≤ relevanceOf a))
    (entityResults ++ relationResults)).take limit

/-! ## Index invariants (claim C4) -/

/-- `ti[t]`, the empty set when the key is absent. -/
def TypeBucketOf (ti : List (String × List String)) (t : String) : List String :=
  (alGet t ti).getD []

/-- `ai[a][v]`, the empty set when either key is absent. -/
def AttrBucketOf (ai : List (String × List (String × List String)))
    (a v : String) : List String :=
  (alGet v ((alGet a ai).getD [])).getD []

/-- `type_index[t]`, the empty set when the key is absent. -/
def TypeIndexBucket (s : KnowledgeGraph) (t : String) : List String :=
  TypeBucketOf s.type_index t

/-- `attribute_index[a][v]`, the empty set when either key is absent. -/
def AttrBucket (s : KnowledgeGraph) (a v : String) : List String :=
  AttrBucketOf s.attribute_index a v

/-- The index/data consistency invariant exactly as claimed: every stored
entity is indexed under its type and all its attribute pairs, and every id
stored anywhere in either index (over all bindings of the index maps) is a
live entity. -/
def ClaimIndexInvariant (s : KnowledgeGraph) : Prop :=
  (∀ k e, alGet k s.entities = some e →
      e.id ∈ TypeIndexBucket s e.type ∧ ∀ av ∈ e.attributes, e.id ∈ AttrBucket s av.1 av.2)
    ∧ (∀ p ∈ s.type_index, ∀ k ∈ p.2, alHasKey k s.entities = true)
    ∧ (∀ p ∈ s.attribute_index, ∀ q ∈ p.2, ∀ k ∈ q.2, alHasKey k s.entities = true)

/-- The strengthened invariant carried through the induction: index
membership characterizes the live entities *exactly* (so removals can clear
every occurrence), ids match their keys, and all map key lists are
duplicate-free. -/
structure KGInv (s : KnowledgeGraph) : Prop where
  entitiesKeys : (s.entities.map Prod.fst).Nodup
  typeKeys : (s.type_index.map Prod.fst).Nodup
  attrKeys : (s.attribute_index.map Prod.fst).Nodup
  attrValKeys : ∀ p ∈ s.attribute_index, (p.2.map Prod.fst).Nodup
  idField : ∀ k e, alGet k s.entities = some e → e.id = k
  typeIdx : ∀ k t, k ∈ TypeIndexBucket s t ↔ ∃ e, alGet k s.entities = some e ∧ e.type = t
  attrIdx : ∀ k a v,
    k ∈ AttrBucket s a v ↔ ∃ e, alGet k s.entities = some e ∧ (a, v) ∈ e.attributes

/-- The freshness side condition the amended C4 (and C3) need: along the
sequence, no `add_entity` call reuses an id that is live at that moment. -/
def freshSeq : KnowledgeGraph → List KGOp → Bool
  | _, [] => true
  | s, op :: rest =>
      (match op with
       | .addE now p => !(alHasKey (resolveEntityId now p) s.entities)
       | _ => true)
        && freshSeq (applyKGOp s op) rest

/-! ## Concrete fixtures for counterexamples and witnesses -/

/-- `max_entities = 10`, `max_relations = 1`; entities `a`, `b`; one relation
`rel_3 : a → b`.  The store sits exactly at relation capacity. -/
def kgAtRelCap : KnowledgeGraph :=
  (add_relation 3 { source := some "a", target := some "b" }
    (add_entity 2 { id := some "b", name := some "B" }
      (add_entity 1 { id := some "a", name := some "A" } (emptyKG 10 1)).1).1).1

/-- A relation payload whose target id is not a live entity. -/
def danglingPayload : RelationPayload := { source := some "a", target := some "zzz" }

/-- Entities `a`, `b` in a store with ample capacity (`10`/`10`). -/
def kgTwoEntities : KnowledgeGraph :=
  (add_entity 2 { id := some "b", name := some "B" }
    (add_entity 1 { id := some "a", name := some "A" } (emptyKG 10 10)).1).1

/-- `kgTwoEntities` plus the bidirectional relation `rel_3` between them. -/
def kgBidir : KnowledgeGraph :=
  (add_relation 3 { source := some "a", target := some "b", type := some "owns",
                    bidirectional := some true } kgTwoEntities).1

/-- A store at entity capacity (`max_entities = 2`) holding `a` and `b`. -/
def kgAtEntCap : KnowledgeGraph :=
  (add_entity 2 { id := some "b", importance := some 1 }
    (add_entity 1 { id := some "a", importance := some 0 } (emptyKG 2 10)).1).1

/-- The C4 counterexample run: insert id `x` with type `A`, overwrite it with
type `B`, then remove it — `type_index["A"]` keeps the dangling `x`. -/
def kgStaleIndex : KnowledgeGraph :=
  runOps (emptyKG 10 10)
    [.addE 1 { id := some "x", type := some "A" },
     .addE 2 { id := some "x", type := some "B" },
     .remE "x"]

/-- Entities `a`, `b`, `c` with edges `a → b` (type `owns`) and `b → c`:
`c` is reachable from `a` only at depth 2. -/
def kgChain : KnowledgeGraph :=
  (add_relation 5 { source := some "b", target := some "c" }
    (add_relation 4 { source := some "a", target := some "b", type := some "owns" }
      (add_entity 3 { id := some "c" }
        (add_entity 2 { id := some "b" }
          (add_entity 1 { id := some "a" } (emptyKG 10 10)).1).1).1).1).1

/-- The spec's §8 query scenario: an entity named `Python` with importance
0.9 and an unrelated entity with importance 0.1. -/
def kgPython : KnowledgeGraph :=
  (add_entity 2 { id := some "u", name := some "Unrelated", importance := some (1 / 10) }
    (add_entity 1 { id := some "p", name := some "Python", importance := some (9 / 10) }
      (emptyKG 10 10)).1).1

/-- A reasoning engine over `kgPython` with an empty cache. -/
def rePython : ReasoningEngine :=
  { knowledge_graph := kgPython, reasoning_rules := [], inference_cache := [] }

/-- The record stored for the `Python` entity of `kgPython`. -/
def pythonEntity : Entity :=
  { id := "p", name := "Python", type := "unknown", attributes := []
    description := "", importance := 9 / 10, createdAt := 1, lastAccessed := 1
    accessCount := 0, confidence := 1 }

/-- The query result `query kgPython "python" …` produces for it:
name match (1.0) plus importance boost (0.27). -/
def pythonDict : PyDict := entityResult pythonEntity (127 / 100)

/-- What actually happens to a bidirectional insert `i → j` at time `now`
(the amended C2): the forward record and both keyed edges exist, the reverse
id is *not* a record in the relation map, removing the forward id removes the
record and both edges, and removing the reverse id fails and changes
nothing. -/
def BidirPairSpec (s : KnowledgeGraph) (now : Nat) (p : RelationPayload)
    (i j : String) : Prop :=
  let rid := "rel_" ++ Nat.repr now
  let rev := "reverse_" ++ rid
  let s' := (add_relation now p s).1
  (add_relation now p s).2 = some rid
    ∧ hasEdge s'.graphEdges i j rid = true
    ∧ hasEdge s'.graphEdges j i rev = true
    ∧ alHasKey rid s'.relations = true
    ∧ alHasKey rev s'.relations = false
    ∧ (remove_relation rid s').2 = true
    ∧ hasEdge (remove_relation rid s').1.graphEdges i j rid = false
    ∧ hasEdge (remove_relation rid s').1.graphEdges j i rev = false
    ∧ alHasKey rid (remove_relation rid s').1.relations = false
    ∧ (remove_relation rev s').2 = false
    ∧ (remove_relation rev s').1 = s'

/-- What the amended C3 asserts about an at-capacity insert with a fresh id:
some stored entity minimizing the eviction score is gone afterwards, every
other entity survives, the new id is live, and the count is back at
`max_entities`. -/
def EvictOneSpec (s : KnowledgeGraph) (now : Nat) (p : EntityPayload) : Prop :=
  ∃ m ∈ s.entities,
    (∀ kv ∈ s.entities, entityEvictionScore m.2 ≤ entityEvictionScore kv.2)
      ∧ (add_entity now p s).1.entities.length = s.maxEntities
      ∧ alGet m.1 (add_entity now p s).1.entities = Option.none
      ∧ (∀ kv ∈ s.entities, kv.1 ≠ m.1 →
          alHasKey kv.1 (add_entity now p s).1.entities = true)
      ∧ alHasKey (resolveEntityId now p) (add_entity now p s).1.entities = true

/-- The store-level frame of the read-style queries (claim C9): every entity
binding is either untouched or exactly `access_count + 1` /
`last_accessed := now`; relations, graph edges and indexes are unchanged. -/
def ReadFrame (now : Nat) (s s' : KnowledgeGraph) : Prop :=
  (∀ k, alGet k s'.entities = alGet k s.entities
      ∨ ∃ old : Entity, alGet k s.entities = some old
          ∧ alGet k s'.entities =
              some { old with lastAccessed := now, accessCount := old.accessCount + 1 })
  ∧ s'.relations = s.relations ∧ s'.graphEdges = s.graphEdges
  ∧ s'.type_index = s.type_index ∧ s'.attribute_index = s.attribute_index

def BumpedCopy (now : Nat) (s s' : KnowledgeGraph) (e : Entity) : Prop :=
  ∃ old : Entity, alGet e.id s.entities = some old
    ∧ e = { old with lastAccessed := now, accessCount := old.accessCount + 1 }
    ∧ alGet e.id s'.entities = some e

def ReadSideEffects (now : Nat) (s : KnowledgeGraph) : Prop :=
  (∀ t limit bucket, alGet t s.type_index = some bucket → bucket.Nodup →
      (∀ e ∈ (find_entities_by_type now t limit s).1,
        BumpedCopy now s (find_entities_by_type now t limit s).2 e)
      ∧ ReadFrame now s (find_entities_by_type now t limit s).2)
  ∧ (∀ an av limit m bucket, alGet an s.attribute_index = some m →
        alGet av m = some bucket → bucket.Nodup →
      (∀ e ∈ (find_entities_by_attribute now an av limit s).1,
        BumpedCopy now s (find_entities_by_attribute now an av limit s).2 e)
      ∧ ReadFrame now s (find_entities_by_attribute now an av limit s).2)
  ∧ (∀ a depth,
      (∀ r ∈ (find_related_entities now a depth s).1,
        BumpedCopy now s (find_related_entities now a depth s).2 r.entity)
      ∧ ReadFrame now s (find_related_entities now a depth s).2)

/-! ## Association-list lemmas -/

theorem alGet_alSet_self {α : Type} (k : String) (v : α) (l : List (String × α)) :
    alGet k (alSet k v l) = some v := by
  induction l with
  | nil => simp [alGet, alSet]
  | cons p rest ih =>
      obtain ⟨a, b⟩ := p
      by_cases h : a = k
      · simp [alSet, alGet, h]
      · simp [alSet, alGet, h, ih]

theorem alGet_alSet_ne {α : Type} {k k' : String} (h : k' ≠ k) (v : α)
    (l : List (String × α)) : alGet k' (alSet k v l) = alGet k' l := by
  induction l with
  | nil => simp [alGet, alSet, Ne.symm h]
  | cons p rest ih =>
      obtain ⟨a, b⟩ := p
      by_cases hp : a = k
      · subst hp
        simp [alSet, alGet, Ne.symm h]
      · by_cases hq : a = k'
        · subst hq
          simp [alSet, alGet, hp, h]
        · simp [alSet, alGet, hp, hq, ih]

theorem alGet_alErase_self {α : Type} (k : String) (l : List (String × α)) :
    alGet k (alErase k l) = none := by
  induction l with
  | nil => simp [alGet, alErase]
  | cons p rest ih =>
      obtain ⟨a, b⟩ := p
      by_cases h : a = k
      · simpa [alErase, h] using ih
      · simpa [alErase, List.filter_cons, bne_iff_ne, h, alGet] using ih

theorem alGet_alErase_ne {α : Type} {k k' : String} (h : k' ≠ k)
    (l : List (String × α)) : alGet k' (alErase k l) = alGet k' l := by
  induction l with
  | nil => simp [alGet, alErase]
  | cons p rest ih =>
      obtain ⟨a, b⟩ := p
      by_cases hp : a = k
      · subst hp
        simpa [alErase, List.filter_cons, alGet, Ne.symm h] using ih
      · by_cases hq : a = k'
        · subst hq
          simp [alErase, List.filter_cons, bne_iff_ne, hp, alGet, h]
        · simpa [alErase, List.filter_cons, bne_iff_ne, hp, alGet, hq] using ih

theorem alGet_eq_none_iff {α : Type} (k : String) (l : List (String × α)) :
    alGet k l = none ↔ k ∉ l.map Prod.fst := by
  induction l with
  | nil => simp [alGet]
  | cons p rest ih =>
      obtain ⟨a, b⟩ := p
      by_cases h : a = k
      · simp [alGet, h]
      · simp [alGet, h, ih, Ne.symm h]

theorem alGet_isSome_iff {α : Type} (k : String) (l : List (String × α)) :
    (alGet k l).isSome = true ↔ k ∈ l.map Prod.fst := by
  rcases ho : alGet k l with _ | v
  · simpa using (alGet_eq_none_iff k l).mp ho
  · simp only [Option.isSome_some, true_iff]
    by_contra hmem
    rw [(alGet_eq_none_iff k l).mpr hmem] at ho
    cases ho

theorem mapFst_alSet {α : Type} (k : String) (v : α) (l : List (String × α)) :
    (alSet k v l).map Prod.fst =
      if k ∈ l.map Prod.fst then l.map Prod.fst else l.map Prod.fst ++ [k] := by
  induction l with
  | nil => simp [alSet]
  | cons p rest ih =>
      obtain ⟨a, b⟩ := p
      by_cases h : a = k
      · simp [alSet, h]
      · by_cases hm : k ∈ rest.map Prod.fst
        · simp [alSet, h, ih, hm, Ne.symm h]
        · simp [alSet, h, ih, hm, Ne.symm h]

theorem nodupKeys_alSet {α : Type} (k : String) (v : α) (l : List (String × α))
    (h : (l.map Prod.fst).Nodup) : ((alSet k v l).map Prod.fst).Nodup := by
  rw [mapFst_alSet]
  by_cases hm : k ∈ l.map Prod.fst
  · simpa [hm] using h
  · simpa [hm] using List.Nodup.append h (by simp) (by simpa using hm)

theorem mem_mapFst_alSet {α : Type} (k k' : String) (v : α) (l : List (String × α)) :
    k' ∈ (alSet k v l).map Prod.fst ↔ k' ∈ l.map Prod.fst ∨ k' = k := by
  rw [mapFst_alSet]
  by_cases hm : k ∈ l.map Prod.fst
  · simp only [if_pos hm]
    constructor
    · exact fun h => Or.inl h
    · rintro (h | rfl)
      · exact h
      · exact hm
  · simp [if_neg hm, or_comm]

/-! ## Stable-sort lemmas -/

theorem insertSorted_perm {α : Type} (le : α → α → Bool) (x : α) (l : List α) :
    (insertSorted le x l).Perm (x :: l) := by
  induction l with
  | nil => simp [insertSorted]
  | cons y ys ih =>
      cases h : le x y with
      | true => simp [insertSorted, h]
      | false =>
          simp only [insertSorted, h, Bool.false_eq_true, if_false]
          exact (ih.cons y).trans (List.Perm.swap x y ys)

theorem stableSort_perm {α : Type} (le : α → α → Bool) (l : List α) :
    (stableSort le l).Perm l := by
  induction l with
  | nil => simp [stableSort]
  | cons x xs ih =>
      have : stableSort le (x :: xs) = insertSorted le x (stableSort le xs) := rfl
      rw [this]
      exact (insertSorted_perm le x (stableSort le xs)).trans (ih.cons x)

theorem mem_stableSort {α : Type} (le : α → α → Bool) (l : List α) (a : α) :
    a ∈ stableSort le l ↔ a ∈ l :=
  (stableSort_perm le l).mem_iff

theorem sorted_insertSorted {α : Type} (le : α → α → Bool)
    (htot : ∀ a b, le a b = false → le b a = true)
    (htrans : ∀ a b c, le a b = true → le b c = true → le a c = true)
    (x : α) (l : List α) (h : l.Pairwise (fun a b => le a b = true)) :
    (insertSorted le x l).Pairwise (fun a b => le a b = true) := by
  induction l with
  | nil => simp [insertSorted]
  | cons y ys ih =>
      rcases List.pairwise_cons.mp h with ⟨hy, hys⟩
      cases hxy : le x y with
      | true =>
          simp only [insertSorted, hxy, if_true]
          refine List.pairwise_cons.mpr ⟨?_, h⟩
          intro z hz
          rcases List.mem_cons.mp hz with rfl | hz
          · exact hxy
          · exact htrans x y z hxy (hy _ hz)
      | false =>
          simp only [insertSorted, hxy, Bool.false_eq_true, if_false]
          refine List.pairwise_cons.mpr ⟨?_, ih hys⟩
          intro z hz
          have hz' := (insertSorted_perm le x ys).mem_iff.mp hz
          rcases List.mem_cons.mp hz' with rfl | hz'
          · exact htot z y hxy
          · exact hy z hz'

theorem sorted_stableSort {α : Type} (le : α → α → Bool)
    (htot : ∀ a b, le a b = false → le b a = true)
    (htrans : ∀ a b c, le a b = true → le b c = true → le a c = true)
    (l : List α) : (stableSort le l).Pairwise (fun a b => le a b = true) := by
  induction l with
  | nil => simp [stableSort]
  | cons x xs ih => exact sorted_insertSorted le htot htrans x _ ih

/-! ## `argminBy` lemmas (Python `min(…, key=f)`) -/

theorem argminBy_foldl_mem {α : Type} (f : α → ℚ) :
    ∀ (xs : List α) (x : α),
      (xs.foldl (fun best y => if f y < f best then y else best) x) ∈ x :: xs := by
  intro xs
  induction xs with
  | nil => intro x; simp
  | cons z rest ih =>
      intro x
      simp only [List.foldl_cons]
      by_cases h : f z < f x
      · rw [if_pos h]
        have := ih z
        rcases List.mem_cons.mp this with h' | h'
        · simp [h']
        · simp [List.mem_cons, h']
      · rw [if_neg h]
        have := ih x
        rcases List.mem_cons.mp this with h' | h'
        · simp [h']
        · simp [List.mem_cons, h']

theorem argminBy_foldl_min {α : Type} (f : α → ℚ) :
    ∀ (xs : List α) (x : α) (y : α), (y = x ∨ y ∈ xs) →
      f (xs.foldl (fun best y => if f y < f best then y else best) x) ≤ f y := by
  intro xs
  induction xs with
  | nil =>
      intro x y hy
      rcases hy with rfl | hy
      · simp
      · cases hy
  | cons z rest ih =>
      intro x y hy
      simp only [List.foldl_cons]
      have step : f (if f z < f x then z else x) ≤ f x ∧ f (if f z < f x then z else x) ≤ f z := by
        by_cases h : f z < f x
        · rw [if_pos h]; exact ⟨le_of_lt h, le_refl _⟩
        · rw [if_neg h]; exact ⟨le_refl _, le_of_not_lt h⟩
      rcases hy with rfl | hy
      · exact le_trans (ih _ _ (Or.inl rfl)) step.1
      · rcases List.mem_cons.mp hy with rfl | hy
        · exact le_trans (ih _ _ (Or.inl rfl)) step.2
        · exact ih _ _ (Or.inr hy)

theorem argminBy_mem {α : Type} (f : α → ℚ) (l : List α) (x : α)
    (h : argminBy f l = some x) : x ∈ l := by
  cases l with
  | nil => cases h
  | cons z rest =>
      simp only [argminBy, Option.some.injEq] at h
      exact h ▸ (argminBy_foldl_mem f rest z)

theorem argminBy_min {α : Type} (f : α → ℚ) (l : List α) (x : α)
    (h : argminBy f l = some x) : ∀ y ∈ l, f x ≤ f y := by
  cases l with
  | nil => cases h
  | cons z rest =>
      intro y hy
      simp only [argminBy, Option.some.injEq] at h
      subst h
      exact argminBy_foldl_min f rest z y (List.mem_cons.mp hy)

/-! ## Timestamp codec -/

theorem char_digit_roundtrip (d : Nat) (hd : d < 10) :
    (Char.ofNat (48 + d)).toNat - 48 = d := by
  interval_cases d <;> decide

theorem fromisoformat_isoformat (t : Nat) : fromisoformat (isoformat t) = t := by
  unfold fromisoformat isoformat
  have hlist : (String.mk (((Nat.digits 10 t).reverse).map
      (fun d => Char.ofNat (48 + d)))).toList =
      ((Nat.digits 10 t).reverse).map (fun d => Char.ofNat (48 + d)) := rfl
  rw [hlist, List.map_map]
  have : ((Nat.digits 10 t).reverse).map
      ((fun c => c.toNat - 48) ∘ (fun d => Char.ofNat (48 + d))) =
      (Nat.digits 10 t).reverse := by
    apply List.map_congr_left ?_ |>.trans (List.map_id _)
    intro d hd
    have hd' : d ∈ Nat.digits 10 t := List.mem_reverse.mp hd
    have : d < 10 := Nat.digits_lt_base (by norm_num) hd'
    simpa using char_digit_roundtrip d this
  rw [this, List.reverse_reverse, Nat.ofDigits_digits]

/-! ## More association-list lemmas -/

theorem alGet_of_mem_nodup {α : Type} {l : List (String × α)} {k : String} {v : α}
    (hnd : (l.map Prod.fst).Nodup) (hm : (k, v) ∈ l) : alGet k l = some v := by
  induction l with
  | nil => cases hm
  | cons p rest ih =>
      obtain ⟨a, b⟩ := p
      have hnd' : (∀ x : α, (a, x) ∉ rest) ∧ (rest.map Prod.fst).Nodup := by
        simpa using hnd
      rcases List.mem_cons.mp hm with heq | hm'
      · cases heq
        simp [alGet]
      · have ha : a ≠ k := by
          rintro rfl
          exact hnd'.1 v hm'
        rw [show alGet k ((a, b) :: rest) = alGet k rest by simp [alGet, ha]]
        exact ih hnd'.2 hm'

theorem alErase_of_not_mem {α : Type} {l : List (String × α)} {k : String}
    (h : k ∉ l.map Prod.fst) : alErase k l = l := by
  induction l with
  | nil => rfl
  | cons p rest ih =>
      obtain ⟨a, b⟩ := p
      have h' : ¬(k = a) ∧ k ∉ rest.map Prod.fst := by
        constructor
        · intro hk
          exact h (by simp [hk])
        · intro hk
          exact h (by simp [hk])
      have := ih h'.2
      simp only [alErase, List.filter_cons, bne_iff_ne, ne_eq] at this ⊢
      rw [if_pos (by simpa using Ne.symm h'.1), this]

theorem length_alErase_of_mem_nodup {α : Type} {l : List (String × α)} {k : String}
    {v : α} (hnd : (l.map Prod.fst).Nodup) (hm : (k, v) ∈ l) :
    (alErase k l).length + 1 = l.length := by
  induction l with
  | nil => cases hm
  | cons p rest ih =>
      obtain ⟨a, b⟩ := p
      have hnd' : (∀ x : α, (a, x) ∉ rest) ∧ (rest.map Prod.fst).Nodup := by
        simpa using hnd
      rcases List.mem_cons.mp hm with heq | hm'
      · cases heq
        have hrest : k ∉ rest.map Prod.fst := by
          intro hmem
          rcases List.mem_map.mp hmem with ⟨⟨k', x⟩, hx, hfst⟩
          cases hfst
          exact hnd'.1 x hx
        have := alErase_of_not_mem hrest
        simp only [alErase, List.filter_cons, bne_iff_ne, ne_eq] at this ⊢
        rw [if_neg (by simp), this, List.length_cons]
      · have ha : a ≠ k := by
          rintro rfl
          exact hnd'.1 v hm'
        have ih' := ih hnd'.2 hm'
        simp only [alErase, List.filter_cons, bne_iff_ne, ne_eq] at ih' ⊢
        rw [if_pos (by simpa using ha)]
        simp only [List.length_cons]
        omega

theorem alSet_of_not_mem {α : Type} {l : List (String × α)} {k : String} (v : α)
    (h : k ∉ l.map Prod.fst) : alSet k v l = l ++ [(k, v)] := by
  induction l with
  | nil => rfl
  | cons p rest ih =>
      obtain ⟨a, b⟩ := p
      have h' : ¬(k = a) ∧ k ∉ rest.map Prod.fst := by
        constructor
        · intro hk
          exact h (by simp [hk])
        · intro hk
          exact h (by simp [hk])
      simp [alSet, Ne.symm h'.1, ih h'.2]

/-! ## Graph-edge lemmas -/

theorem hasEdge_edgeListSet_self (g : List Edge) (u v k : String) (d : Relation) :
    hasEdge (edgeListSet u v k d g) u v k = true := by
  induction g with
  | nil => simp [edgeListSet, hasEdge]
  | cons e es ih =>
      cases h : (e.source == u && e.target == v && e.key == k) with
      | true => simp [edgeListSet, h, hasEdge]
      | false =>
          simp only [edgeListSet, h, Bool.false_eq_true, if_false]
          simp only [hasEdge, List.any_cons] at ih ⊢
          rw [ih, Bool.or_true]

theorem hasEdge_edgeListSet_ne {k' k : String} (hk : k' ≠ k) (g : List Edge)
    (u v u' v' : String) (d : Relation) :
    hasEdge (edgeListSet u v k d g) u' v' k' = hasEdge g u' v' k' := by
  have hkk : (k == k') = false := by simpa using Ne.symm hk
  induction g with
  | nil => simp [edgeListSet, hasEdge, hkk]
  | cons e es ih =>
      cases h : (e.source == u && e.target == v && e.key == k) with
      | true =>
          have hek : e.key = k := by
            have h' := h
            simp only [Bool.and_eq_true, beq_iff_eq] at h'
            exact h'.2
          have hek' : (e.key == k') = false := by rw [hek]; exact hkk
          simp only [edgeListSet, h, if_true]
          simp [hasEdge, List.any_cons, hkk, hek']
      | false =>
          simp only [edgeListSet, h, Bool.false_eq_true, if_false]
          simp only [hasEdge, List.any_cons] at ih ⊢
          rw [ih]

theorem hasEdge_removeEdge_self (g : List Edge) (u v k : String) :
    hasEdge (removeEdge g u v k) u v k = false := by
  induction g with
  | nil => simp [removeEdge, hasEdge]
  | cons e es ih =>
      cases h : (e.source == u && e.target == v && e.key == k) with
      | true =>
          simp only [removeEdge, List.filter_cons, h, Bool.not_true, Bool.false_eq_true,
            if_false] at ih ⊢
          exact ih
      | false =>
          simp only [removeEdge, List.filter_cons, h, Bool.not_false, if_true] at ih ⊢
          simp only [hasEdge, List.any_cons, h, Bool.false_or] at ih ⊢
          exact ih

theorem hasEdge_removeEdge_ne {k' k : String} (hk : k' ≠ k) (g : List Edge)
    (u v u' v' : String) :
    hasEdge (removeEdge g u v k) u' v' k' = hasEdge g u' v' k' := by
  have hkk : (k == k') = false := by simpa using Ne.symm hk
  induction g with
  | nil => simp [removeEdge, hasEdge]
  | cons e es ih =>
      cases h : (e.source == u && e.target == v && e.key == k) with
      | true =>
          have hek : e.key = k := by
            have h' := h
            simp only [Bool.and_eq_true, beq_iff_eq] at h'
            exact h'.2
          have hek' : (e.key == k') = false := by rw [hek]; exact hkk
          simp only [removeEdge, List.filter_cons, h, Bool.not_true, Bool.false_eq_true,
            if_false] at ih ⊢
          simp [hasEdge, List.any_cons, hek'] at ih ⊢
          exact ih
      | false =>
          simp only [removeEdge, List.filter_cons, h, Bool.not_false, if_true] at ih ⊢
          simp only [hasEdge, List.any_cons] at ih ⊢
          rw [ih]

/-- `"reverse_" ++ s` is never `s` itself (their lengths differ). -/
theorem reverse_prepend_ne (s : String) : "reverse_" ++ s ≠ s := by
  intro h
  have := congrArg (fun t => t.toList.length) h
  simp at this
  omega

/-! ## Serialization round-trip lemmas -/

theorem parseEntity_serializeEntity (e : Entity) : parseEntity (serializeEntity e) = e := by
  cases e
  simp [parseEntity, serializeEntity, fromisoformat_isoformat]

theorem parseRelation_serializeRelation (r : Relation) :
    parseRelation (serializeRelation r) = r := by
  cases r
  simp [parseRelation, serializeRelation, fromisoformat_isoformat]

theorem foldl_addEdge_fields (rs : List (String × Relation)) :
    ∀ g : KnowledgeGraph,
      (rs.foldl (fun g kv => addEdge g kv.2.source kv.2.target kv.2.id kv.2) g).entities
          = g.entities
      ∧ (rs.foldl (fun g kv => addEdge g kv.2.source kv.2.target kv.2.id kv.2) g).relations
          = g.relations
      ∧ (rs.foldl (fun g kv => addEdge g kv.2.source kv.2.target kv.2.id kv.2) g).type_index
          = g.type_index
      ∧ (rs.foldl (fun g kv => addEdge g kv.2.source kv.2.target kv.2.id kv.2) g).attribute_index
          = g.attribute_index := by
  induction rs with
  | nil => intro g; exact ⟨rfl, rfl, rfl, rfl⟩
  | cons kv rest ih =>
      intro g
      simpa [List.foldl_cons, addEdge] using ih (addEdge g kv.2.source kv.2.target kv.2.id kv.2)

theorem foldl_addNode_fields (es : List (String × Entity)) :
    ∀ g : KnowledgeGraph,
      (es.foldl (fun g kv => { g with graphNodes := setAdd kv.1 g.graphNodes }) g).entities
          = g.entities
      ∧ (es.foldl (fun g kv => { g with graphNodes := setAdd kv.1 g.graphNodes }) g).relations
          = g.relations
      ∧ (es.foldl (fun g kv => { g with graphNodes := setAdd kv.1 g.graphNodes }) g).type_index
          = g.type_index
      ∧ (es.foldl (fun g kv =>
            { g with graphNodes := setAdd kv.1 g.graphNodes }) g).attribute_index
          = g.attribute_index := by
  induction es with
  | nil => intro g; exact ⟨rfl, rfl, rfl, rfl⟩
  | cons kv rest ih =>
      intro g
      simpa using ih { g with graphNodes := setAdd kv.1 g.graphNodes }

theorem foldl_addEdge_entities (rs : List (String × Relation)) (g : KnowledgeGraph) :
    (rs.foldl (fun g kv => addEdge g kv.2.source kv.2.target kv.2.id kv.2) g).entities
      = g.entities := (foldl_addEdge_fields rs g).1

theorem foldl_addEdge_relations (rs : List (String × Relation)) (g : KnowledgeGraph) :
    (rs.foldl (fun g kv => addEdge g kv.2.source kv.2.target kv.2.id kv.2) g).relations
      = g.relations := (foldl_addEdge_fields rs g).2.1

theorem foldl_addEdge_type_index (rs : List (String × Relation)) (g : KnowledgeGraph) :
    (rs.foldl (fun g kv => addEdge g kv.2.source kv.2.target kv.2.id kv.2) g).type_index
      = g.type_index := (foldl_addEdge_fields rs g).2.2.1

theorem foldl_addEdge_attribute_index (rs : List (String × Relation)) (g : KnowledgeGraph) :
    (rs.foldl (fun g kv => addEdge g kv.2.source kv.2.target kv.2.id kv.2) g).attribute_index
      = g.attribute_index := (foldl_addEdge_fields rs g).2.2.2

theorem foldl_addNode_entities (es : List (String × Entity)) (g : KnowledgeGraph) :
    (es.foldl (fun g kv => { g with graphNodes := setAdd kv.1 g.graphNodes }) g).entities
      = g.entities := (foldl_addNode_fields es g).1

theorem foldl_addNode_relations (es : List (String × Entity)) (g : KnowledgeGraph) :
    (es.foldl (fun g kv => { g with graphNodes := setAdd kv.1 g.graphNodes }) g).relations
      = g.relations := (foldl_addNode_fields es g).2.1

theorem foldl_addNode_type_index (es : List (String × Entity)) (g : KnowledgeGraph) :
    (es.foldl (fun g kv => { g with graphNodes := setAdd kv.1 g.graphNodes }) g).type_index
      = g.type_index := (foldl_addNode_fields es g).2.2.1

theorem foldl_addNode_attribute_index (es : List (String × Entity)) (g : KnowledgeGraph) :
    (es.foldl (fun g kv => { g with graphNodes := setAdd kv.1 g.graphNodes }) g).attribute_index
      = g.attribute_index := (foldl_addNode_fields es g).2.2.2

/-! ## Query-result record lemmas -/

theorem alGet_type_entityResult (e : Entity) (rel : ℚ) :
    alGet "type" (entityResult e rel) = some (Value.str "entity") := by
  simp [entityResult, entityToDict, alSet, alGet]

theorem countP_type_entityResult (e : Entity) (rel : ℚ) :
    (entityResult e rel).countP (fun p => p.1 == "type") = 1 := by
  simp [entityResult, entityToDict, alSet, List.countP, List.countP.go]

theorem alGet_type_relationResult (s : KnowledgeGraph) (r : Relation) (rel : ℚ) :
    alGet "type" (relationResult s r rel) = some (Value.str "relation") := by
  simp [relationResult, relationToDict, alSet, alGet]

theorem countP_type_relationResult (s : KnowledgeGraph) (r : Relation) (rel : ℚ) :
    (relationResult s r rel).countP (fun p => p.1 == "type") = 1 := by
  simp [relationResult, relationToDict, alSet, List.countP, List.countP.go]

/-! ## Field-preservation lemmas for the store operations -/

theorem remove_relation_core_fields (rid : String) (st : KnowledgeGraph) :
    (remove_relation rid st).1.entities = st.entities
    ∧ (remove_relation rid st).1.type_index = st.type_index
    ∧ (remove_relation rid st).1.attribute_index = st.attribute_index := by
  unfold remove_relation
  cases alGet rid st.relations <;> exact ⟨rfl, rfl, rfl⟩

theorem foldl_remove_relation_entities (rids : List String) :
    ∀ st : KnowledgeGraph,
      (rids.foldl (fun s rid => (remove_relation rid s).1) st).entities = st.entities := by
  induction rids with
  | nil => intro st; rfl
  | cons r rest ih =>
      intro st
      rw [List.foldl_cons, ih, (remove_relation_core_fields r st).1]

theorem updateEntityIndexes_entities (eid : String) (e : Entity) (st : KnowledgeGraph) :
    (updateEntityIndexes eid e st).entities = st.entities := rfl

theorem remove_entity_entities_of_some {eid : String} {st : KnowledgeGraph} {e : Entity}
    (h : alGet eid st.entities = some e) :
    (remove_entity eid st).1.entities = alErase eid st.entities := by
  simp only [remove_entity, h]
  simp [foldl_remove_relation_entities, apply_ite KnowledgeGraph.entities]

/-- Unfolding `add_entity` at capacity: the argmin entity is removed, then
the record for the resolved id is stored. -/
theorem add_entity_entities_at_cap {s : KnowledgeGraph} (now : Nat) (p : EntityPayload)
    {m : String × Entity}
    (hge : s.entities.length ≥ s.maxEntities)
    (hm : argminBy (fun kv => entityEvictionScore kv.2) s.entities = some m)
    (hget : alGet m.1 s.entities = some m.2) :
    (add_entity now p s).1.entities =
      alSet (resolveEntityId now p)
        { id := resolveEntityId now p
          name := p.name.getD ""
          type := p.type.getD "unknown"
          attributes := p.attributes.getD []
          description := p.description.getD ""
          importance := p.importance.getD (1 / 2)
          createdAt := now
          lastAccessed := now
          accessCount := 0
          confidence := p.confidence.getD 1 }
        (alErase m.1 s.entities) := by
  simp only [add_entity, eq_true hge, if_true, removeLeastImportantEntity, hm,
    updateEntityIndexes_entities]
  rw [remove_entity_entities_of_some hget]

/-! ## Relevance-score lemmas -/

theorem foldl_half_count (ql : String) (l : List (String × String)) : ∀ r0 : ℚ,
    l.foldl (fun acc av => if pyIn ql (lowerStr av.2) then acc + 1 / 2 else acc) r0
      = r0 + ((l.filter (fun av => pyIn ql (lowerStr av.2))).length : ℚ) * (1 / 2) := by
  induction l with
  | nil => intro r0; simp
  | cons av rest ih =>
      intro r0
      by_cases h : pyIn ql (lowerStr av.2)
      · simp only [List.foldl_cons, List.filter_cons, h, if_true, ih, List.length_cons]
        push_cast
        ring
      · simp only [List.foldl_cons, List.filter_cons, h, if_false, ih, Bool.false_eq_true]

/-- The source's stepwise relevance accumulation equals the spec's sum. -/
theorem query_entity_relevance_eq_spec :
    query_entity_relevance = spec_entity_relevance := by
  funext ql e
  simp only [query_entity_relevance, spec_entity_relevance]
  rw [foldl_half_count]
  by_cases h1 : pyIn ql (lowerStr e.name) <;>
    by_cases h2 : pyIn ql (lowerStr e.description) <;>
      by_cases h3 : pyIn ql (lowerStr e.type) <;>
        simp [h1, h2, h3]

theorem query_relation_relevance_eq_spec :
    query_relation_relevance = spec_relation_relevance := rfl

theorem spec_entity_relevance_nonneg (ql : String) (e : Entity)
    (h : 0 ≤ e.importance) : 0 ≤ spec_entity_relevance ql e := by
  unfold spec_entity_relevance
  refine add_nonneg (add_nonneg (add_nonneg (add_nonneg ?_ ?_) ?_) ?_) ?_
  · split <;> norm_num
  · split <;> norm_num
  · exact mul_nonneg (Nat.cast_nonneg _) (by norm_num)
  · split <;> norm_num
  · exact mul_nonneg h (by norm_num)

theorem spec_relation_relevance_nonneg (ql : String) (r : Relation)
    (h : 0 ≤ r.importance) : 0 ≤ spec_relation_relevance ql r := by
  unfold spec_relation_relevance
  refine add_nonneg ?_ (mul_nonneg h (by norm_num))
  split <;> norm_num

/-! ## Traversal (BFS) lemmas -/

theorem sspl_cutoff_one (edges : List Edge) (a : String) :
    single_source_shortest_path_length edges a 1 =
      (a, 0) :: (layerOf edges a).map (fun v => (v, 1)) := by
  simp [single_source_shortest_path_length, ssplAux, layerOf, succsOf]

theorem mem_layerFold (visKeys : List String) (l : List String) :
    ∀ (acc : List String) (x : String),
      x ∈ l.foldl
        (fun acc v => if visKeys.contains v || acc.contains v then acc else acc ++ [v]) acc
      ↔ x ∈ acc ∨ (x ∈ l ∧ visKeys.contains x = false) := by
  induction l with
  | nil => intro acc x; simp
  | cons v rest ih =>
      intro acc x
      rw [List.foldl_cons]
      cases h : (visKeys.contains v || acc.contains v) with
      | true =>
          rw [if_pos rfl]
          rw [ih]
          constructor
          · rintro (hx | ⟨hx, hv⟩)
            · exact Or.inl hx
            · exact Or.inr ⟨List.mem_cons_of_mem v hx, hv⟩
          · rintro (hx | ⟨hx, hv⟩)
            · exact Or.inl hx
            · rcases List.mem_cons.mp hx with rfl | hx'
              · rcases Bool.or_eq_true_iff.mp h with h' | h'
                · rw [hv] at h'
                  cases h'
                · exact Or.inl (by simpa using h')
              · exact Or.inr ⟨hx', hv⟩
      | false =>
          rw [if_neg (by simp)]
          rw [ih]
          rcases Bool.or_eq_false_iff.mp h with ⟨hv1, hv2⟩
          constructor
          · rintro (hx | ⟨hx, hv⟩)
            · rcases List.mem_append.mp hx with hx' | hx'
              · exact Or.inl hx'
              · have : x = v := by simpa using hx'
                subst this
                exact Or.inr ⟨List.mem_cons_self _ _, hv1⟩
            · exact Or.inr ⟨List.mem_cons_of_mem v hx, hv⟩
          · rintro (hx | ⟨hx, hv⟩)
            · exact Or.inl (List.mem_append.mpr (Or.inl hx))
            · rcases List.mem_cons.mp hx with rfl | hx'
              · exact Or.inl (List.mem_append.mpr (Or.inr (by simp)))
              · exact Or.inr ⟨hx', hv⟩

theorem mem_layerOf (edges : List Edge) (a x : String) :
    x ∈ layerOf edges a ↔ x ∈ succsOf edges a ∧ x ≠ a := by
  rw [layerOf, mem_layerFold]
  simp

theorem mem_alSet_elim {α : Type} {kv : String × α} {k : String} {v : α}
    {l : List (String × α)} (h : kv ∈ alSet k v l) : kv = (k, v) ∨ kv ∈ l := by
  induction l with
  | nil => simpa [alSet] using h
  | cons p rest ih =>
      obtain ⟨a, b⟩ := p
      by_cases hp : a = k
      · subst hp
        simp only [alSet, beq_self_eq_true, if_true] at h
        rcases List.mem_cons.mp h with rfl | h'
        · exact Or.inl rfl
        · exact Or.inr (List.mem_cons_of_mem _ h')
      · simp only [alSet, beq_iff_eq, if_neg hp] at h
        rcases List.mem_cons.mp h with rfl | h'
        · exact Or.inr (List.mem_cons_self _ _)
        · rcases ih h' with h'' | h''
          · exact Or.inl h''
          · exact Or.inr (List.mem_cons_of_mem _ h'')

theorem alGet_mem {α : Type} {l : List (String × α)} {k : String} {v : α}
    (h : alGet k l = some v) : (k, v) ∈ l := by
  induction l with
  | nil => cases h
  | cons p rest ih =>
      obtain ⟨a, b⟩ := p
      by_cases hx : a = k
      · subst hx
        simp only [alGet, beq_self_eq_true, if_true, Option.some.injEq] at h
        subst h
        exact List.mem_cons_self _ _
      · simp only [alGet, beq_iff_eq, if_neg hx] at h
        exact List.mem_cons_of_mem _ (ih h)

/-- The `find_related_entities` loop invariant and postconditions, by
induction over the processed `(node, distance)` pairs. -/
theorem frel_fold_spec (now : Nat) (a : String) (s0 : KnowledgeGraph) :
    ∀ (pairs : List (String × Nat)) (acc : List RelatedEntity) (st : KnowledgeGraph),
      (∀ kv ∈ st.entities, kv.2.id = kv.1) →
      st.entities.map Prod.fst = s0.entities.map Prod.fst →
      (∀ r ∈ acc, r ∈ (pairs.foldl (frelStep now a) (acc, st)).1)
      ∧ (∀ r ∈ (pairs.foldl (frelStep now a) (acc, st)).1,
           r ∈ acc ∨ ∃ tp ∈ pairs, r.entity.id = tp.1 ∧ r.relationship_distance = tp.2
             ∧ r.relationship_strength = 1 / ((tp.2 : ℚ) + 1))
      ∧ (∀ tp ∈ pairs, tp.1 ≠ a → tp.1 ∈ s0.entities.map Prod.fst → 1 ≤ tp.2 →
           ∃ r ∈ (pairs.foldl (frelStep now a) (acc, st)).1,
             r.entity.id = tp.1 ∧ r.relationship_distance = tp.2
               ∧ r.relationship_strength = 1 / ((tp.2 : ℚ) + 1)) := by
  intro pairs
  induction pairs with
  | nil =>
      intro acc st hW hK
      exact ⟨fun r hr => hr, fun r hr => Or.inl hr,
        fun tp htp => absurd htp (List.not_mem_nil _)⟩
  | cons tp0 rest ih =>
      intro acc st hW hK
      rw [List.foldl_cons]
      by_cases hskip : (tp0.1 == a || !(alHasKey tp0.1 st.entities)) = true
        ∨ tp0.2 + 1 < 2
      · have hstep : frelStep now a (acc, st) tp0 = (acc, st) := by
          rcases hskip with h1 | h2
          · simp [frelStep, h1]
          · by_cases h1 : (tp0.1 == a || !(alHasKey tp0.1 st.entities)) = true
            · simp [frelStep, h1]
            · simp [frelStep, h1, h2]
        rw [hstep]
        obtain ⟨ih1, ih2, ih3⟩ := ih acc st hW hK
        refine ⟨ih1, ?_, ?_⟩
        · intro r hr
          rcases ih2 r hr with h | ⟨tp, htp, hprops⟩
          · exact Or.inl h
          · exact Or.inr ⟨tp, List.mem_cons_of_mem _ htp, hprops⟩
        · intro tp htp hne hmem hd
          rcases List.mem_cons.mp htp with rfl | htp'
          · exfalso
            rcases hskip with h1 | h2
            · rcases Bool.or_eq_true_iff.mp h1 with h' | h'
              · exact hne (by simpa using h')
              · have hk : alHasKey tp.1 st.entities = true := by
                  rw [alHasKey]
                  apply (alGet_isSome_iff _ _).mpr
                  rw [hK]
                  exact hmem
                rw [hk] at h'
                cases h'
            · omega
          · exact ih3 tp htp' hne hmem hd
      · push_neg at hskip
        obtain ⟨hcond, hdist⟩ := hskip
        have hor : (tp0.1 == a || !(alHasKey tp0.1 st.entities)) = false := by
          simpa using hcond
        obtain ⟨hne_a, hkey'⟩ := Bool.or_eq_false_iff.mp hor
        have hkey : alHasKey tp0.1 st.entities = true := by
          simpa using hkey'
        obtain ⟨e, he⟩ : ∃ e, alGet tp0.1 st.entities = some e := by
          rw [alHasKey] at hkey
          rcases ho : alGet tp0.1 st.entities with _ | e
          · rw [ho] at hkey
            cases hkey
          · exact ⟨e, rfl⟩
        have heid : e.id = tp0.1 := hW (tp0.1, e) (alGet_mem he)
        set e2 : Entity := { e with lastAccessed := now, accessCount := e.accessCount + 1 }
          with he2
        set r0 : RelatedEntity := ⟨e2, tp0.2, 1 / ((tp0.2 : ℚ) + 1)⟩ with hr0def
        set st2 : KnowledgeGraph := { st with entities := alSet tp0.1 e2 st.entities }
          with hst2
        have hstep : frelStep now a (acc, st) tp0 = (acc ++ [r0], st2) := by
          simp [frelStep, hne_a, hkey, hdist, get_entity, he, hr0def, hst2, he2]
        rw [hstep]
        have hW2 : ∀ kv ∈ st2.entities, kv.2.id = kv.1 := by
          intro kv hkv
          rw [hst2] at hkv
          rcases mem_alSet_elim hkv with rfl | hkv'
          · simpa [he2] using heid
          · exact hW kv hkv'
        have hK2 : st2.entities.map Prod.fst = s0.entities.map Prod.fst := by
          have hmem0 : tp0.1 ∈ st.entities.map Prod.fst := by
            apply (alGet_isSome_iff _ _).mp
            rw [he]
            rfl
          rw [hst2]
          simp only [mapFst_alSet, hmem0, if_pos]
          exact hK
        obtain ⟨ih1, ih2, ih3⟩ := ih (acc ++ [r0]) st2 hW2 hK2
        have hr0mem : r0 ∈ (rest.foldl (frelStep now a) (acc ++ [r0], st2)).1 :=
          ih1 r0 (List.mem_append.mpr (Or.inr (by simp)))
        refine ⟨?_, ?_, ?_⟩
        · intro r hr
          exact ih1 r (List.mem_append.mpr (Or.inl hr))
        · intro r hr
          rcases ih2 r hr with h | ⟨tp, htp, hprops⟩
          · rcases List.mem_append.mp h with h2 | h2
            · exact Or.inl h2
            · have : r = r0 := by simpa using h2
              subst this
              refine Or.inr ⟨tp0, List.mem_cons_self _ _, ?_, rfl, rfl⟩
              simpa [hr0def, he2] using heid
          · exact Or.inr ⟨tp, List.mem_cons_of_mem _ htp, hprops⟩
        · intro tp htp hne hmem hd
          rcases List.mem_cons.mp htp with rfl | htp'
          · refine ⟨r0, hr0mem, ?_, rfl, rfl⟩
            simpa [hr0def, he2] using heid
          · exact ih3 tp htp' hne hmem hd

/-! ## Read-query side-effect lemmas -/

/-- Behaviour of the shared `get_entity` collection loop on a duplicate-free
id list: every returned copy is the stored record with `access_count`
bumped and `last_accessed` refreshed, the final store holds exactly those
updates, and nothing else changes. -/
theorem getEntitiesAcc_spec (now : Nat) :
    ∀ (ids : List String) (st : KnowledgeGraph), ids.Nodup →
      (∀ e ∈ (getEntitiesAcc now ids st).1, ∃ eid ∈ ids, ∃ old : Entity,
          alGet eid st.entities = some old
          ∧ e = { old with lastAccessed := now, accessCount := old.accessCount + 1 }
          ∧ alGet eid (getEntitiesAcc now ids st).2.entities = some e)
      ∧ (∀ k, k ∉ ids →
          alGet k (getEntitiesAcc now ids st).2.entities = alGet k st.entities)
      ∧ (∀ k, alGet k (getEntitiesAcc now ids st).2.entities = alGet k st.entities
          ∨ ∃ old : Entity, alGet k st.entities = some old
              ∧ alGet k (getEntitiesAcc now ids st).2.entities =
                  some { old with lastAccessed := now, accessCount := old.accessCount + 1 })
      ∧ (getEntitiesAcc now ids st).2.relations = st.relations
      ∧ (getEntitiesAcc now ids st).2.graphEdges = st.graphEdges
      ∧ (getEntitiesAcc now ids st).2.type_index = st.type_index
      ∧ (getEntitiesAcc now ids st).2.attribute_index = st.attribute_index := by
  intro ids
  induction ids with
  | nil =>
      intro st _
      exact ⟨fun e he => absurd he (List.not_mem_nil _), fun k _ => rfl,
        fun k => Or.inl rfl, rfl, rfl, rfl, rfl⟩
  | cons eid rest ih =>
      intro st hnd
      have hnd' := List.nodup_cons.mp hnd
      rcases ho : alGet eid st.entities with _ | old
      · -- absent id: get_entity is a no-op
        have hstep : getEntitiesAcc now (eid :: rest) st = getEntitiesAcc now rest st := by
          simp [getEntitiesAcc, get_entity, ho]
        rw [hstep]
        obtain ⟨ih1, ih2, ih3, ih4⟩ := ih st hnd'.2
        refine ⟨?_, ?_, ih3, ih4⟩
        · intro e he
          obtain ⟨eid', hmem, old, h⟩ := ih1 e he
          exact ⟨eid', List.mem_cons_of_mem _ hmem, old, h⟩
        · intro k hk
          exact ih2 k (fun hx => hk (List.mem_cons_of_mem _ hx))
      · -- live id: the stored record is updated in place
        set old2 : Entity := { old with lastAccessed := now, accessCount := old.accessCount + 1 }
          with hold2
        set st1 : KnowledgeGraph := { st with entities := alSet eid old2 st.entities } with hst1
        have hstep : getEntitiesAcc now (eid :: rest) st =
            (old2 :: (getEntitiesAcc now rest st1).1, (getEntitiesAcc now rest st1).2) := by
          simp [getEntitiesAcc, get_entity, ho, hold2, hst1]
        rw [hstep]
        obtain ⟨ih1, ih2, ih3, ih4⟩ := ih st1 hnd'.2
        have hGet1 : ∀ k, k ≠ eid → alGet k st1.entities = alGet k st.entities := by
          intro k hk
          rw [hst1]
          exact alGet_alSet_ne hk old2 st.entities
        have hEidSt1 : alGet eid st1.entities = some old2 := by
          rw [hst1]
          exact alGet_alSet_self _ _ _
        refine ⟨?_, ?_, ?_, ih4⟩
        · intro e he
          rcases List.mem_cons.mp he with rfl | he'
          · refine ⟨eid, List.mem_cons_self _ _, old, ho, rfl, ?_⟩
            rw [ih2 eid hnd'.1, hEidSt1]
          · obtain ⟨eid', hmem, o, ho', heq, hfin⟩ := ih1 e he'
            have hne : eid' ≠ eid := fun h => hnd'.1 (h ▸ hmem)
            exact ⟨eid', List.mem_cons_of_mem _ hmem, o, (hGet1 eid' hne) ▸ ho', heq, hfin⟩
        · intro k hk
          have hk1 : k ≠ eid := fun h => hk (h ▸ List.mem_cons_self _ _)
          have hk2 : k ∉ rest := fun h => hk (List.mem_cons_of_mem _ h)
          rw [ih2 k hk2, hGet1 k hk1]
        · intro k
          by_cases hk : k = eid
          · subst hk
            right
            exact ⟨old, ho, by rw [ih2 k hnd'.1, hEidSt1]⟩
          · rcases ih3 k with h | ⟨o, ho', hfin⟩
            · rw [hGet1 k hk] at h
              exact Or.inl h
            · rw [hGet1 k hk] at ho'
              exact Or.inr ⟨o, ho', hfin⟩

/-- Store effects of the `find_related_entities` loop on a duplicate-free
pair list. -/
theorem frel_fold_effects (now : Nat) (a : String) :
    ∀ (pairs : List (String × Nat)) (acc : List RelatedEntity) (st : KnowledgeGraph),
      (pairs.map Prod.fst).Nodup →
      (∀ r ∈ (pairs.foldl (frelStep now a) (acc, st)).1, r ∈ acc ∨
          ∃ eid ∈ pairs.map Prod.fst, ∃ old : Entity, alGet eid st.entities = some old
            ∧ r.entity = { old with lastAccessed := now, accessCount := old.accessCount + 1 }
            ∧ alGet eid (pairs.foldl (frelStep now a) (acc, st)).2.entities = some r.entity)
      ∧ (∀ k, k ∉ pairs.map Prod.fst →
          alGet k (pairs.foldl (frelStep now a) (acc, st)).2.entities = alGet k st.entities)
      ∧ (∀ k, alGet k (pairs.foldl (frelStep now a) (acc, st)).2.entities
            = alGet k st.entities
          ∨ ∃ old : Entity, alGet k st.entities = some old
              ∧ alGet k (pairs.foldl (frelStep now a) (acc, st)).2.entities =
                  some { old with lastAccessed := now, accessCount := old.accessCount + 1 })
      ∧ (pairs.foldl (frelStep now a) (acc, st)).2.relations = st.relations
      ∧ (pairs.foldl (frelStep now a) (acc, st)).2.graphEdges = st.graphEdges
      ∧ (pairs.foldl (frelStep now a) (acc, st)).2.type_index = st.type_index
      ∧ (pairs.foldl (frelStep now a) (acc, st)).2.attribute_index = st.attribute_index := by
  intro pairs
  induction pairs with
  | nil =>
      intro acc st _
      exact ⟨fun r hr => Or.inl hr, fun k _ => rfl, fun k => Or.inl rfl, rfl, rfl, rfl, rfl⟩
  | cons tp0 rest ih =>
      intro acc st hnd
      have hnd' : tp0.1 ∉ rest.map Prod.fst ∧ (rest.map Prod.fst).Nodup := by
        constructor
        · exact (List.nodup_cons.mp (by simpa using hnd)).1
        · exact (List.nodup_cons.mp (by simpa using hnd)).2
      rw [List.foldl_cons]
      by_cases hskip : (tp0.1 == a || !(alHasKey tp0.1 st.entities)) = true
        ∨ tp0.2 + 1 < 2
      · have hstep : frelStep now a (acc, st) tp0 = (acc, st) := by
          rcases hskip with h1 | h2
          · simp [frelStep, h1]
          · by_cases h1 : (tp0.1 == a || !(alHasKey tp0.1 st.entities)) = true
            · simp [frelStep, h1]
            · simp [frelStep, h1, h2]
        rw [hstep]
        obtain ⟨ih1, ih2, ih3, ih4⟩ := ih acc st hnd'.2
        refine ⟨?_, ?_, ih3, ih4⟩
        · intro r hr
          rcases ih1 r hr with h | ⟨eid, hmemEid, rest'⟩
          · exact Or.inl h
          · exact Or.inr ⟨eid, by simp [hmemEid], rest'⟩
        · intro k hk
          exact ih2 k (fun hx => hk (List.mem_cons_of_mem _ hx))
      · push_neg at hskip
        obtain ⟨hcond, hdist⟩ := hskip
        have hor : (tp0.1 == a || !(alHasKey tp0.1 st.entities)) = false := by
          simpa using hcond
        obtain ⟨hne_a, hkey'⟩ := Bool.or_eq_false_iff.mp hor
        have hkey : alHasKey tp0.1 st.entities = true := by
          simpa using hkey'
        obtain ⟨e, he⟩ : ∃ e, alGet tp0.1 st.entities = some e := by
          rw [alHasKey] at hkey
          rcases ho : alGet tp0.1 st.entities with _ | e
          · rw [ho] at hkey
            cases hkey
          · exact ⟨e, rfl⟩
        set e2 : Entity := { e with lastAccessed := now, accessCount := e.accessCount + 1 }
          with he2
        set r0 : RelatedEntity := ⟨e2, tp0.2, 1 / ((tp0.2 : ℚ) + 1)⟩ with hr0def
        set st2 : KnowledgeGraph := { st with entities := alSet tp0.1 e2 st.entities }
          with hst2
        have hstep : frelStep now a (acc, st) tp0 = (acc ++ [r0], st2) := by
          simp [frelStep, hne_a, hkey, hdist, get_entity, he, hr0def, hst2, he2]
        rw [hstep]
        obtain ⟨ih1, ih2, ih3, ih4⟩ := ih (acc ++ [r0]) st2 hnd'.2
        have hGet1 : ∀ k, k ≠ tp0.1 → alGet k st2.entities = alGet k st.entities := by
          intro k hk
          rw [hst2]
          exact alGet_alSet_ne hk e2 st.entities
        have hEidSt2 : alGet tp0.1 st2.entities = some e2 := by
          rw [hst2]
          exact alGet_alSet_self _ _ _
        refine ⟨?_, ?_, ?_, ih4⟩
        · intro r hr
          rcases ih1 r hr with h | ⟨eid, hmemEid, o, ho', heq, hfin⟩
          · rcases List.mem_append.mp h with h2 | h2
            · exact Or.inl h2
            · have hr0 : r = r0 := by simpa using h2
              subst hr0
              refine Or.inr ⟨tp0.1, by simp, e, he, by rw [hr0def], ?_⟩
              rw [ih2 tp0.1 hnd'.1, hEidSt2, hr0def]
          · have hk : eid ≠ tp0.1 := fun h => hnd'.1 (h ▸ hmemEid)
            rw [hGet1 eid hk] at ho'
            exact Or.inr ⟨eid, by simp [hmemEid], o, ho', heq, hfin⟩
        · intro k hk
          have hk1 : k ≠ tp0.1 := fun h => hk (by simp [h])
          have hk2 : k ∉ rest.map Prod.fst := fun h => hk (by simp [h])
          rw [ih2 k hk2, hGet1 k hk1]
        · intro k
          by_cases hk : k = tp0.1
          · subst hk
            right
            refine ⟨e, he, ?_⟩
            rw [ih2 tp0.1 hnd'.1, hEidSt2, he2]
          · rcases ih3 k with h | ⟨o, ho', hfin⟩
            · rw [hGet1 k hk] at h
              exact Or.inl h
            · rw [hGet1 k hk] at ho'
              exact Or.inr ⟨o, ho', hfin⟩

theorem contains_eq_false_iff (l : List String) (x : String) :
    l.contains x = false ↔ x ∉ l := by
  simp

theorem nodup_layerFold (visKeys : List String) (l : List String) :
    ∀ acc : List String, acc.Nodup →
      (l.foldl
        (fun acc v => if visKeys.contains v || acc.contains v then acc else acc ++ [v])
        acc).Nodup := by
  induction l with
  | nil => intro acc hacc; exact hacc
  | cons v rest ih =>
      intro acc hacc
      rw [List.foldl_cons]
      cases h : (visKeys.contains v || acc.contains v) with
      | true =>
          rw [if_pos rfl]
          exact ih acc hacc
      | false =>
          rw [if_neg (by simp)]
          apply ih
          have hv : v ∉ acc := by
            rcases Bool.or_eq_false_iff.mp h with ⟨_, h2⟩
            exact (contains_eq_false_iff _ _).mp h2
          exact List.Nodup.append hacc (by simp)
            (by intro x hx hx'
                have : x = v := by simpa using hx'
                exact hv (this ▸ hx))

theorem sspl_nodup (edges : List Edge) :
    ∀ (fuel : Nat) (visited : List (String × Nat)) (frontier : List String) (d : Nat),
      (visited.map Prod.fst).Nodup →
      ((ssplAux edges visited frontier d fuel).map Prod.fst).Nodup := by
  intro fuel
  induction fuel with
  | zero =>
      intro visited frontier d h
      simpa [ssplAux] using h
  | succ n ih =>
      intro visited frontier d h
      rw [ssplAux]
      apply ih
      rw [List.map_append, List.map_map]
      have hid : (Prod.fst ∘ fun v => (v, d + 1)) = fun v : String => v := rfl
      rw [hid, List.map_id']
      apply List.Nodup.append h
      · exact nodup_layerFold _ _ [] (by simp)
      · intro x hx hx'
        have := (mem_layerFold (visited.map Prod.fst) _ [] x).mp hx'
        rcases this with h0 | ⟨_, hc⟩
        · cases h0
        · exact ((contains_eq_false_iff _ _).mp hc) hx

/-! ## Inference-cache lemmas -/

theorem infer_hit {re : ReasoningEngine} {q : String} {d : Nat} {L : List PyDict}
    (now : Nat) (h : alGet (cacheKey q d) re.inference_cache = some L) :
    infer now q d re = (L, re) := by
  simp [infer, h]

theorem infer_caches (now : Nat) (q : String) (d : Nat) (re : ReasoningEngine) :
    alGet (cacheKey q d) (infer now q d re).2.inference_cache = some (infer now q d re).1 := by
  rcases h : alGet (cacheKey q d) re.inference_cache with _ | L
  · simp only [infer, h]
    exact alGet_alSet_self _ _ _
  · rw [infer_hit now h]
    exact h

theorem execAgentOp_cache_mono (re : ReasoningEngine) (op : AgentOp) (key : String)
    (L : List PyDict) (h : alGet key re.inference_cache = some L) :
    alGet key (execAgentOp re op).inference_cache = some L := by
  cases op with
  | addE now p => exact h
  | addR now p => exact h
  | remE id => exact h
  | remR id => exact h
  | addRule now p => exact h
  | getE now id => exact h
  | inferOp now q d =>
      rcases hc : alGet (cacheKey q d) re.inference_cache with _ | L'
      · simp only [execAgentOp, infer, hc]
        have hne : key ≠ cacheKey q d := by
          intro he
          rw [he, hc] at h
          cases h
        rw [alGet_alSet_ne hne]
        exact h
      · simp only [execAgentOp]
        rw [infer_hit now hc]
        exact h

theorem execAgentOps_cache_mono (ops : List AgentOp) :
    ∀ (re : ReasoningEngine) (key : String) (L : List PyDict),
      alGet key re.inference_cache = some L →
      alGet key (execAgentOps re ops).inference_cache = some L := by
  induction ops with
  | nil => intro re key L h; exact h
  | cons op rest ih =>
      intro re key L h
      exact ih (execAgentOp re op) key L (execAgentOp_cache_mono re op key L h)

theorem infer_miss {re : ReasoningEngine} {q : String} {d : Nat} (now : Nat)
    (h : alGet (cacheKey q d) re.inference_cache = Option.none) :
    (infer now q d re).1 =
      (stableSort (fun a b => decide (relevanceOf b ≤ relevanceOf a))
        (dedupById [] (query re.knowledge_graph q 10
          ++ applyRules re.reasoning_rules q
          ++ (graphReasoning now q d re.knowledge_graph).1))).take 10 := by
  simp [infer, h]

theorem contains_eq_false_iff_val (l : List Value) (x : Value) :
    l.contains x = false ↔ x ∉ l := by
  simp

theorem dedupById_nodup : ∀ (l : List PyDict) (seen : List Value),
    ((dedupById seen l).map idKeyOf).Nodup
    ∧ ∀ v ∈ (dedupById seen l).map idKeyOf, v ∉ seen := by
  intro l
  induction l with
  | nil => intro seen; exact ⟨by simp [dedupById], by simp [dedupById]⟩
  | cons dd rest ih =>
      intro seen
      cases h : seen.contains (idKeyOf dd) with
      | true =>
          rw [show dedupById seen (dd :: rest) = dedupById seen rest by
            simp only [dedupById, h, if_true]]
          exact ih seen
      | false =>
          rw [show dedupById seen (dd :: rest) = dd :: dedupById (idKeyOf dd :: seen) rest by
            simp only [dedupById, h, Bool.false_eq_true, if_false]]
          obtain ⟨ih1, ih2⟩ := ih (idKeyOf dd :: seen)
          have hnotseen : idKeyOf dd ∉ seen := (contains_eq_false_iff_val _ _).mp h
          refine ⟨?_, ?_⟩
          · rw [List.map_cons]
            apply List.nodup_cons.mpr
            refine ⟨?_, ih1⟩
            intro hmem
            exact (ih2 _ hmem) (List.mem_cons_self _ _)
          · intro v hv
            rw [List.map_cons] at hv
            rcases List.mem_cons.mp hv with rfl | hv'
            · exact hnotseen
            · intro hs
              exact (ih2 v hv') (List.mem_cons_of_mem _ hs)

/-! ## Index-invariant lemmas (claim C4) -/

theorem mem_setDiscard (x y : String) (l : List String) :
    x ∈ setDiscard y l ↔ x ∈ l ∧ x ≠ y := by
  simp [setDiscard, List.mem_filter, bne_iff_ne]

theorem mem_setAdd (x y : String) (l : List String) :
    x ∈ setAdd y l ↔ x ∈ l ∨ x = y := by
  unfold setAdd
  by_cases h : l.contains y
  · rw [if_pos h]
    constructor
    · exact Or.inl
    · rintro (hx | rfl)
      · exact hx
      · simpa using h
  · rw [if_neg h]
    simp [or_comm]

theorem setDiscard_idem (y : String) (l : List String) :
    setDiscard y (setDiscard y l) = setDiscard y l := by
  unfold setDiscard
  rw [List.filter_filter]
  simp

theorem setAdd_idem (y : String) (l : List String) :
    setAdd y (setAdd y l) = setAdd y l := by
  unfold setAdd
  by_cases h : l.contains y
  · rw [if_pos h, if_pos h]
  · rw [if_neg h]
    rw [if_pos (by simp)]

theorem attrIndexDiscard_bucket (eid : String)
    (ai : List (String × List (String × List String))) (p : String × String)
    (a v : String) :
    AttrBucketOf (attrIndexDiscard eid ai p) a v =
      if p.1 = a ∧ p.2 = v then setDiscard eid (AttrBucketOf ai a v)
      else AttrBucketOf ai a v := by
  unfold attrIndexDiscard
  rcases hm : alGet p.1 ai with _ | m
  · by_cases hpa : p.1 = a
    · subst hpa
      by_cases hpv : p.2 = v
      · subst hpv
        simp [AttrBucketOf, hm, setDiscard, alGet]
      · simp [hpv]
    · simp [hpa]
  · rcases hb : alGet p.2 m with _ | bucket
    · by_cases hpa : p.1 = a
      · subst hpa
        by_cases hpv : p.2 = v
        · subst hpv
          simp [AttrBucketOf, hm, hb, setDiscard]
        · simp [hb, hpv]
      · simp [hb, hpa]
    · by_cases hpa : p.1 = a
      · subst hpa
        by_cases hpv : p.2 = v
        · subst hpv
          rw [if_pos (And.intro rfl rfl)]
          simp only [hb]
          rw [AttrBucketOf, AttrBucketOf, alGet_alSet_self, hm]
          simp only [Option.getD_some]
          rw [alGet_alSet_self, hb]
          rfl
        · rw [if_neg (by simp [hpv])]
          simp only [hb]
          rw [AttrBucketOf, AttrBucketOf, alGet_alSet_self, hm]
          simp only [Option.getD_some]
          rw [alGet_alSet_ne (Ne.symm hpv)]
      · rw [if_neg (by simp [hpa])]
        simp only [hb]
        rw [AttrBucketOf, AttrBucketOf, alGet_alSet_ne (Ne.symm hpa)]

theorem attrIndexAdd_bucket (eid : String)
    (ai : List (String × List (String × List String))) (p : String × String)
    (a v : String) :
    AttrBucketOf (attrIndexAdd eid ai p) a v =
      if p.1 = a ∧ p.2 = v then setAdd eid (AttrBucketOf ai a v)
      else AttrBucketOf ai a v := by
  unfold attrIndexAdd
  by_cases hpa : p.1 = a
  · subst hpa
    by_cases hpv : p.2 = v
    · subst hpv
      rw [if_pos (And.intro rfl rfl)]
      rw [AttrBucketOf, AttrBucketOf, alGet_alSet_self]
      simp only [Option.getD_some]
      rw [alGet_alSet_self]
      rfl
    · rw [if_neg (by simp [hpv])]
      rw [AttrBucketOf, AttrBucketOf, alGet_alSet_self]
      simp only [Option.getD_some]
      rw [alGet_alSet_ne (Ne.symm hpv)]
  · rw [if_neg (by simp [hpa])]
    rw [AttrBucketOf, AttrBucketOf, alGet_alSet_ne (Ne.symm hpa)]

theorem attrDiscard_fold_bucket (eid : String) :
    ∀ (attrs : List (String × String))
      (ai : List (String × List (String × List String))) (a v : String),
      AttrBucketOf (attrs.foldl (attrIndexDiscard eid) ai) a v =
        if (a, v) ∈ attrs then setDiscard eid (AttrBucketOf ai a v)
        else AttrBucketOf ai a v := by
  intro attrs
  induction attrs with
  | nil => intro ai a v; simp
  | cons p rest ih =>
      intro ai a v
      rw [List.foldl_cons, ih, attrIndexDiscard_bucket]
      by_cases hp : p.1 = a ∧ p.2 = v
      · have hpav : p = (a, v) := by
          obtain ⟨h1, h2⟩ := hp
          exact Prod.ext h1 h2
        by_cases hr : (a, v) ∈ rest
        · rw [if_pos hr, if_pos hp, if_pos (by simp [hpav, hr]), setDiscard_idem]
        · rw [if_neg hr, if_pos hp, if_pos (by simp [hpav])]
      · have hpav : p ≠ (a, v) := by
          intro h
          exact hp (by simp [h])
        by_cases hr : (a, v) ∈ rest
        · rw [if_pos hr, if_neg hp, if_pos (List.mem_cons_of_mem _ hr)]
        · have hnc : ¬ ((a, v) ∈ p :: rest) := by
            simp only [List.mem_cons]
            rintro (h | h)
            · exact hpav h.symm
            · exact hr h
          rw [if_neg hr, if_neg hp, if_neg hnc]

theorem attrAdd_fold_bucket (eid : String) :
    ∀ (attrs : List (String × String))
      (ai : List (String × List (String × List String))) (a v : String),
      AttrBucketOf (attrs.foldl (attrIndexAdd eid) ai) a v =
        if (a, v) ∈ attrs then setAdd eid (AttrBucketOf ai a v)
        else AttrBucketOf ai a v := by
  intro attrs
  induction attrs with
  | nil => intro ai a v; simp
  | cons p rest ih =>
      intro ai a v
      rw [List.foldl_cons, ih, attrIndexAdd_bucket]
      by_cases hp : p.1 = a ∧ p.2 = v
      · have hpav : p = (a, v) := by
          obtain ⟨h1, h2⟩ := hp
          exact Prod.ext h1 h2
        by_cases hr : (a, v) ∈ rest
        · rw [if_pos hr, if_pos hp, if_pos (by simp [hpav, hr]), setAdd_idem]
        · rw [if_neg hr, if_pos hp, if_pos (by simp [hpav])]
      · have hpav : p ≠ (a, v) := by
          intro h
          exact hp (by simp [h])
        by_cases hr : (a, v) ∈ rest
        · rw [if_pos hr, if_neg hp, if_pos (List.mem_cons_of_mem _ hr)]
        · have hnc : ¬ ((a, v) ∈ p :: rest) := by
            simp only [List.mem_cons]
            rintro (h | h)
            · exact hpav h.symm
            · exact hr h
          rw [if_neg hr, if_neg hp, if_neg hnc]

theorem typeIndexDiscard_bucket (eid t0 : String) (ti : List (String × List String))
    (t : String) :
    TypeBucketOf (typeIndexDiscard eid t0 ti) t =
      if t0 = t then setDiscard eid (TypeBucketOf ti t) else TypeBucketOf ti t := by
  unfold typeIndexDiscard
  rcases hm : alGet t0 ti with _ | bucket
  · by_cases ht : t0 = t
    · subst ht
      simp [TypeBucketOf, hm, setDiscard]
    · simp [ht]
  · by_cases ht : t0 = t
    · subst ht
      rw [if_pos rfl, TypeBucketOf, TypeBucketOf, alGet_alSet_self, hm]
      rfl
    · rw [if_neg ht, TypeBucketOf, TypeBucketOf, alGet_alSet_ne (Ne.symm ht)]

theorem typeIndexAdd_bucket (eid t0 : String) (ti : List (String × List String))
    (t : String) :
    TypeBucketOf (typeIndexAdd eid t0 ti) t =
      if t0 = t then setAdd eid (TypeBucketOf ti t) else TypeBucketOf ti t := by
  unfold typeIndexAdd
  rcases hm : alGet t0 ti with _ | bucket
  · by_cases ht : t0 = t
    · subst ht
      rw [if_pos rfl, TypeBucketOf, TypeBucketOf, alGet_alSet_self, hm]
      rfl
    · rw [if_neg ht, TypeBucketOf, TypeBucketOf, alGet_alSet_ne (Ne.symm ht)]
  · by_cases ht : t0 = t
    · subst ht
      rw [if_pos rfl, TypeBucketOf, TypeBucketOf, alGet_alSet_self, hm]
      rfl
    · rw [if_neg ht, TypeBucketOf, TypeBucketOf, alGet_alSet_ne (Ne.symm ht)]

theorem typeIndexDiscard_keys (eid t0 : String) (ti : List (String × List String)) :
    (typeIndexDiscard eid t0 ti).map Prod.fst = ti.map Prod.fst := by
  unfold typeIndexDiscard
  rcases hm : alGet t0 ti with _ | bucket
  · rfl
  · have hmem : t0 ∈ ti.map Prod.fst := by
      apply (alGet_isSome_iff _ _).mp
      rw [hm]
      rfl
    rw [mapFst_alSet, if_pos hmem]

theorem typeIndexAdd_keys_nodup (eid t0 : String) (ti : List (String × List String))
    (h : (ti.map Prod.fst).Nodup) : ((typeIndexAdd eid t0 ti).map Prod.fst).Nodup := by
  unfold typeIndexAdd
  rcases alGet t0 ti with _ | bucket <;> exact nodupKeys_alSet _ _ _ h

theorem attrIndexDiscard_keys (eid : String)
    (ai : List (String × List (String × List String))) (p : String × String) :
    (attrIndexDiscard eid ai p).map Prod.fst = ai.map Prod.fst := by
  unfold attrIndexDiscard
  rcases hm : alGet p.1 ai with _ | m
  · rfl
  · rcases hb : alGet p.2 m with _ | bucket
    · simp [hb]
    · have hmem : p.1 ∈ ai.map Prod.fst := by
        apply (alGet_isSome_iff _ _).mp
        rw [hm]
        rfl
      simp only [hb]
      rw [mapFst_alSet, if_pos hmem]

theorem attrDiscard_fold_keys (eid : String) :
    ∀ (attrs : List (String × String)) (ai : List (String × List (String × List String))),
      ((attrs.foldl (attrIndexDiscard eid) ai).map Prod.fst) = ai.map Prod.fst := by
  intro attrs
  induction attrs with
  | nil => intro ai; rfl
  | cons p rest ih =>
      intro ai
      rw [List.foldl_cons, ih, attrIndexDiscard_keys]

theorem attrIndexAdd_keys_nodup (eid : String)
    (ai : List (String × List (String × List String))) (p : String × String)
    (h : (ai.map Prod.fst).Nodup) :
    ((attrIndexAdd eid ai p).map Prod.fst).Nodup := by
  unfold attrIndexAdd
  exact nodupKeys_alSet _ _ _ h

theorem attrAdd_fold_keys_nodup (eid : String) :
    ∀ (attrs : List (String × String)) (ai : List (String × List (String × List String))),
      (ai.map Prod.fst).Nodup →
      ((attrs.foldl (attrIndexAdd eid) ai).map Prod.fst).Nodup := by
  intro attrs
  induction attrs with
  | nil => intro ai h; exact h
  | cons p rest ih =>
      intro ai h
      rw [List.foldl_cons]
      exact ih _ (attrIndexAdd_keys_nodup eid ai p h)

theorem attrIndexDiscard_valKeys (eid : String)
    (ai : List (String × List (String × List String))) (p : String × String)
    (h : ∀ q ∈ ai, (q.2.map Prod.fst).Nodup) :
    ∀ q ∈ attrIndexDiscard eid ai p, (q.2.map Prod.fst).Nodup := by
  unfold attrIndexDiscard
  rcases hm : alGet p.1 ai with _ | m
  · exact h
  · rcases hb : alGet p.2 m with _ | bucket
    · simpa [hb] using h
    · simp only [hb]
      intro q hq
      rcases mem_alSet_elim hq with rfl | hq'
      · exact nodupKeys_alSet _ _ _ (h (p.1, m) (alGet_mem hm))
      · exact h q hq'

theorem attrDiscard_fold_valKeys (eid : String) :
    ∀ (attrs : List (String × String)) (ai : List (String × List (String × List String))),
      (∀ q ∈ ai, (q.2.map Prod.fst).Nodup) →
      ∀ q ∈ attrs.foldl (attrIndexDiscard eid) ai, (q.2.map Prod.fst).Nodup := by
  intro attrs
  induction attrs with
  | nil => intro ai h; exact h
  | cons p rest ih =>
      intro ai h
      rw [List.foldl_cons]
      exact ih _ (attrIndexDiscard_valKeys eid ai p h)

theorem attrIndexAdd_valKeys (eid : String)
    (ai : List (String × List (String × List String))) (p : String × String)
    (h : ∀ q ∈ ai, (q.2.map Prod.fst).Nodup) :
    ∀ q ∈ attrIndexAdd eid ai p, (q.2.map Prod.fst).Nodup := by
  unfold attrIndexAdd
  intro q hq
  rcases mem_alSet_elim hq with rfl | hq'
  · apply nodupKeys_alSet
    rcases hm : alGet p.1 ai with _ | m
    · simp
    · simpa using h (p.1, m) (alGet_mem hm)
  · exact h q hq'

theorem attrAdd_fold_valKeys (eid : String) :
    ∀ (attrs : List (String × String)) (ai : List (String × List (String × List String))),
      (∀ q ∈ ai, (q.2.map Prod.fst).Nodup) →
      ∀ q ∈ attrs.foldl (attrIndexAdd eid) ai, (q.2.map Prod.fst).Nodup := by
  intro attrs
  induction attrs with
  | nil => intro ai h; exact h
  | cons p rest ih =>
      intro ai h
      rw [List.foldl_cons]
      exact ih _ (attrIndexAdd_valKeys eid ai p h)

theorem foldl_remove_relation_type_index (rids : List String) :
    ∀ st : KnowledgeGraph,
      (rids.foldl (fun s rid => (remove_relation rid s).1) st).type_index = st.type_index := by
  induction rids with
  | nil => intro st; rfl
  | cons r rest ih =>
      intro st
      rw [List.foldl_cons, ih, (remove_relation_core_fields r st).2.1]

theorem foldl_remove_relation_attribute_index (rids : List String) :
    ∀ st : KnowledgeGraph,
      (rids.foldl (fun s rid => (remove_relation rid s).1) st).attribute_index
        = st.attribute_index := by
  induction rids with
  | nil => intro st; rfl
  | cons r rest ih =>
      intro st
      rw [List.foldl_cons, ih, (remove_relation_core_fields r st).2.2]

theorem remove_entity_fields_of_some {eid : String} {s : KnowledgeGraph} {e : Entity}
    (h : alGet eid s.entities = some e) :
    (remove_entity eid s).1.entities = alErase eid s.entities
    ∧ (remove_entity eid s).1.type_index = typeIndexDiscard eid e.type s.type_index
    ∧ (remove_entity eid s).1.attribute_index =
        e.attributes.foldl (attrIndexDiscard eid) s.attribute_index := by
  refine ⟨?_, ?_, ?_⟩
  · simp only [remove_entity, h]
    simp [foldl_remove_relation_entities, apply_ite KnowledgeGraph.entities]
  · simp only [remove_entity, h]
    simp [foldl_remove_relation_type_index, apply_ite KnowledgeGraph.type_index]
  · simp only [remove_entity, h]
    simp [foldl_remove_relation_attribute_index, apply_ite KnowledgeGraph.attribute_index]

theorem remove_entity_fields_of_none {eid : String} {s : KnowledgeGraph}
    (h : alGet eid s.entities = Option.none) : (remove_entity eid s).1 = s := by
  simp [remove_entity, h]

theorem removeLeastImportantRelation_core (s : KnowledgeGraph) :
    (removeLeastImportantRelation s).entities = s.entities
    ∧ (removeLeastImportantRelation s).type_index = s.type_index
    ∧ (removeLeastImportantRelation s).attribute_index = s.attribute_index := by
  unfold removeLeastImportantRelation
  cases h : argminBy (fun kv => kv.2.importance) s.relations with
  | none => simp [h]
  | some kv => simp only [h]; exact remove_relation_core_fields kv.1 s

theorem add_relation_core (now : Nat) (p : RelationPayload) (s : KnowledgeGraph) :
    (add_relation now p s).1.entities = s.entities
    ∧ (add_relation now p s).1.type_index = s.type_index
    ∧ (add_relation now p s).1.attribute_index = s.attribute_index := by
  have hrl := removeLeastImportantRelation_core s
  simp only [add_relation]
  split_ifs <;>
    first
      | exact ⟨rfl, rfl, rfl⟩
      | exact ⟨hrl.1, hrl.2.1, hrl.2.2⟩

/-- `KGInv` only looks at the entity map and the two indexes. -/
theorem KGInv_congr {s s' : KnowledgeGraph}
    (he : s'.entities = s.entities) (ht : s'.type_index = s.type_index)
    (ha : s'.attribute_index = s.attribute_index) (hinv : KGInv s) : KGInv s' := by
  obtain ⟨h1, h2, h3, h4, h5, h6, h7⟩ := hinv
  exact ⟨he ▸ h1, ht ▸ h2, ha ▸ h3,
    by rw [ha]; exact h4,
    by rw [he]; exact h5,
    by simp only [TypeIndexBucket, ht, he]; exact h6,
    by simp only [AttrBucket, ha, he]; exact h7⟩

theorem alGet_alErase {α : Type} (k eid : String) (l : List (String × α)) :
    alGet k (alErase eid l) = if k = eid then Option.none else alGet k l := by
  by_cases h : k = eid
  · subst h
    rw [if_pos rfl, alGet_alErase_self]
  · rw [if_neg h, alGet_alErase_ne h]

theorem nodupKeys_alErase {α : Type} (k : String) (l : List (String × α))
    (h : (l.map Prod.fst).Nodup) : ((alErase k l).map Prod.fst).Nodup := by
  unfold alErase
  exact List.Nodup.sublist (List.Sublist.map Prod.fst (List.filter_sublist l)) h

/-- `remove_entity` preserves the strengthened index invariant: the removed
id disappears from the entity map and from exactly the buckets that held it. -/
theorem KGInv_remove_entity (eid : String) {s : KnowledgeGraph} (hinv : KGInv s) :
    KGInv (remove_entity eid s).1 := by
  rcases h : alGet eid s.entities with _ | e
  · rw [remove_entity_fields_of_none h]
    exact hinv
  · obtain ⟨he, ht, ha⟩ := remove_entity_fields_of_some h
    refine ⟨?_, ?_, ?_, ?_, ?_, ?_, ?_⟩
    · rw [he]
      exact nodupKeys_alErase _ _ hinv.entitiesKeys
    · rw [ht, typeIndexDiscard_keys]
      exact hinv.typeKeys
    · rw [ha, attrDiscard_fold_keys]
      exact hinv.attrKeys
    · rw [ha]
      exact attrDiscard_fold_valKeys eid e.attributes s.attribute_index hinv.attrValKeys
    · intro k e' hk
      rw [he, alGet_alErase] at hk
      by_cases hke : k = eid
      · rw [if_pos hke] at hk
        cases hk
      · rw [if_neg hke] at hk
        exact hinv.idField k e' hk
    · intro k t
      have hbucket : TypeIndexBucket (remove_entity eid s).1 t
          = if e.type = t then setDiscard eid (TypeBucketOf s.type_index t)
            else TypeBucketOf s.type_index t := by
        unfold TypeIndexBucket
        rw [ht, typeIndexDiscard_bucket]
      rw [hbucket]
      constructor
      · intro hmem
        by_cases het : e.type = t
        · rw [if_pos het, mem_setDiscard] at hmem
          obtain ⟨hold, hne⟩ := hmem
          obtain ⟨e'', he'', ht''⟩ := (hinv.typeIdx k t).mp hold
          refine ⟨e'', ?_, ht''⟩
          rw [he, alGet_alErase, if_neg hne]
          exact he''
        · rw [if_neg het] at hmem
          obtain ⟨e'', he'', ht''⟩ := (hinv.typeIdx k t).mp hmem
          have hne : k ≠ eid := by
            rintro rfl
            rw [h] at he''
            cases he''
            exact het ht''
          refine ⟨e'', ?_, ht''⟩
          rw [he, alGet_alErase, if_neg hne]
          exact he''
      · rintro ⟨e'', he'', ht''⟩
        rw [he, alGet_alErase] at he''
        by_cases hne : k = eid
        · rw [if_pos hne] at he''
          cases he''
        · rw [if_neg hne] at he''
          have hold : k ∈ TypeIndexBucket s t := (hinv.typeIdx k t).mpr ⟨e'', he'', ht''⟩
          by_cases het : e.type = t
          · rw [if_pos het, mem_setDiscard]
            exact ⟨hold, hne⟩
          · rw [if_neg het]
            exact hold
    · intro k a v
      have hbucket : AttrBucket (remove_entity eid s).1 a v
          = if (a, v) ∈ e.attributes then setDiscard eid (AttrBucketOf s.attribute_index a v)
            else AttrBucketOf s.attribute_index a v := by
        unfold AttrBucket
        rw [ha, attrDiscard_fold_bucket]
      rw [hbucket]
      constructor
      · intro hmem
        by_cases hav : (a, v) ∈ e.attributes
        · rw [if_pos hav, mem_setDiscard] at hmem
          obtain ⟨hold, hne⟩ := hmem
          obtain ⟨e'', he'', hat''⟩ := (hinv.attrIdx k a v).mp hold
          refine ⟨e'', ?_, hat''⟩
          rw [he, alGet_alErase, if_neg hne]
          exact he''
        · rw [if_neg hav] at hmem
          obtain ⟨e'', he'', hat''⟩ := (hinv.attrIdx k a v).mp hmem
          have hne : k ≠ eid := by
            rintro rfl
            rw [h] at he''
            cases he''
            exact hav hat''
          refine ⟨e'', ?_, hat''⟩
          rw [he, alGet_alErase, if_neg hne]
          exact he''
      · rintro ⟨e'', he'', hat''⟩
        rw [he, alGet_alErase] at he''
        by_cases hne : k = eid
        · rw [if_pos hne] at he''
          cases he''
        · rw [if_neg hne] at he''
          have hold : k ∈ AttrBucket s a v := (hinv.attrIdx k a v).mpr ⟨e'', he'', hat''⟩
          by_cases hav : (a, v) ∈ e.attributes
          · rw [if_pos hav, mem_setDiscard]
            exact ⟨hold, hne⟩
          · rw [if_neg hav]
            exact hold

theorem KGInv_removeLeastImportantEntity {s : KnowledgeGraph} (hinv : KGInv s) :
    KGInv (removeLeastImportantEntity s) := by
  unfold removeLeastImportantEntity
  cases hm : argminBy (fun kv => entityEvictionScore kv.2) s.entities with
  | none => simp only [hm]; exact hinv
  | some kv => simp only [hm]; exact KGInv_remove_entity kv.1 hinv

theorem alHasKey_removeLeastImportantEntity {k : String} {s : KnowledgeGraph}
    (h : alHasKey k s.entities = false) :
    alHasKey k (removeLeastImportantEntity s).entities = false := by
  unfold removeLeastImportantEntity
  cases hm : argminBy (fun kv => entityEvictionScore kv.2) s.entities with
  | none => simp only [hm]; exact h
  | some kv =>
      simp only [hm]
      rcases he : alGet kv.1 s.entities with _ | e
      · rw [remove_entity_fields_of_none he]
        exact h
      · simp only [alHasKey] at h ⊢
        rw [(remove_entity_fields_of_some he).1, alGet_alErase]
        by_cases hk : k = kv.1
        · rw [if_pos hk]
          rfl
        · rw [if_neg hk]
          exact h

/-- Storing a *fresh* id and indexing it (`entities[id] = e`;
`_update_entity_indexes`) preserves the strengthened invariant. -/
theorem KGInv_insert {s1 : KnowledgeGraph} (hinv : KGInv s1) (ent : Entity) (eid : String)
    (ns : List String) (hid : ent.id = eid) (hfresh : alHasKey eid s1.entities = false) :
    KGInv (updateEntityIndexes eid ent
      { s1 with entities := alSet eid ent s1.entities, graphNodes := ns }) := by
  have hnone : alGet eid s1.entities = Option.none := by
    rcases ho : alGet eid s1.entities with _ | v
    · rfl
    · rw [alHasKey, ho] at hfresh
      cases hfresh
  refine ⟨?_, ?_, ?_, ?_, ?_, ?_, ?_⟩
  · exact nodupKeys_alSet _ _ _ hinv.entitiesKeys
  · exact typeIndexAdd_keys_nodup _ _ _ hinv.typeKeys
  · exact attrAdd_fold_keys_nodup _ _ _ hinv.attrKeys
  · exact attrAdd_fold_valKeys _ _ _ hinv.attrValKeys
  · intro k e' hk
    by_cases hke : k = eid
    · subst hke
      rw [show (updateEntityIndexes k ent
            { s1 with entities := alSet k ent s1.entities, graphNodes := ns }).entities
          = alSet k ent s1.entities from rfl, alGet_alSet_self] at hk
      cases hk
      rw [hid]
    · rw [show (updateEntityIndexes eid ent
            { s1 with entities := alSet eid ent s1.entities, graphNodes := ns }).entities
          = alSet eid ent s1.entities from rfl, alGet_alSet_ne hke] at hk
      exact hinv.idField k e' hk
  · intro k t
    have hbucket : TypeIndexBucket (updateEntityIndexes eid ent
          { s1 with entities := alSet eid ent s1.entities, graphNodes := ns }) t
        = if ent.type = t then setAdd eid (TypeBucketOf s1.type_index t)
          else TypeBucketOf s1.type_index t := by
      unfold TypeIndexBucket
      rw [show (updateEntityIndexes eid ent
            { s1 with entities := alSet eid ent s1.entities, graphNodes := ns }).type_index
          = typeIndexAdd eid ent.type s1.type_index from rfl, typeIndexAdd_bucket]
    rw [hbucket, show (updateEntityIndexes eid ent
          { s1 with entities := alSet eid ent s1.entities, graphNodes := ns }).entities
        = alSet eid ent s1.entities from rfl]
    by_cases hke : k = eid
    · subst hke
      rw [alGet_alSet_self]
      by_cases het : ent.type = t
      · rw [if_pos het, mem_setAdd]
        constructor
        · intro _
          exact ⟨ent, rfl, het⟩
        · intro _
          exact Or.inr rfl
      · rw [if_neg het]
        constructor
        · intro hmem
          obtain ⟨e'', he'', _⟩ := (hinv.typeIdx k t).mp hmem
          rw [hnone] at he''
          cases he''
        · rintro ⟨e'', he'', ht''⟩
          cases he''
          exact absurd ht'' het
    · rw [alGet_alSet_ne hke]
      by_cases het : ent.type = t
      · rw [if_pos het, mem_setAdd]
        constructor
        · rintro (hold | rfl)
          · exact (hinv.typeIdx k t).mp hold
          · exact absurd rfl hke
        · intro hex
          exact Or.inl ((hinv.typeIdx k t).mpr hex)
      · rw [if_neg het]
        exact hinv.typeIdx k t
  · intro k a v
    have hbucket : AttrBucket (updateEntityIndexes eid ent
          { s1 with entities := alSet eid ent s1.entities, graphNodes := ns }) a v
        = if (a, v) ∈ ent.attributes then setAdd eid (AttrBucketOf s1.attribute_index a v)
          else AttrBucketOf s1.attribute_index a v := by
      unfold AttrBucket
      rw [show (updateEntityIndexes eid ent
            { s1 with entities := alSet eid ent s1.entities, graphNodes := ns }).attribute_index
          = ent.attributes.foldl (attrIndexAdd eid) s1.attribute_index from rfl,
        attrAdd_fold_bucket]
    rw [hbucket, show (updateEntityIndexes eid ent
          { s1 with entities := alSet eid ent s1.entities, graphNodes := ns }).entities
        = alSet eid ent s1.entities from rfl]
    by_cases hke : k = eid
    · subst hke
      rw [alGet_alSet_self]
      by_cases hav : (a, v) ∈ ent.attributes
      · rw [if_pos hav, mem_setAdd]
        constructor
        · intro _
          exact ⟨ent, rfl, hav⟩
        · intro _
          exact Or.inr rfl
      · rw [if_neg hav]
        constructor
        · intro hmem
          obtain ⟨e'', he'', _⟩ := (hinv.attrIdx k a v).mp hmem
          rw [hnone] at he''
          cases he''
        · rintro ⟨e'', he'', hat''⟩
          cases he''
          exact absurd hat'' hav
    · rw [alGet_alSet_ne hke]
      by_cases hav : (a, v) ∈ ent.attributes
      · rw [if_pos hav, mem_setAdd]
        constructor
        · rintro (hold | rfl)
          · exact (hinv.attrIdx k a v).mp hold
          · exact absurd rfl hke
        · intro hex
          exact Or.inl ((hinv.attrIdx k a v).mpr hex)
      · rw [if_neg hav]
        exact hinv.attrIdx k a v

/-- `add_entity` preserves the strengthened invariant provided the resolved
id is not live before the call (the eviction can only shrink the live set,
so freshness survives it). -/
theorem KGInv_add_entity (now : Nat) (p : EntityPayload) {s : KnowledgeGraph}
    (hinv : KGInv s) (hfresh : alHasKey (resolveEntityId now p) s.entities = false) :
    KGInv (add_entity now p s).1 := by
  simp only [add_entity]
  by_cases hc : s.entities.length ≥ s.maxEntities
  · rw [if_pos hc]
    exact KGInv_insert (KGInv_removeLeastImportantEntity hinv) _ _ _ rfl
      (alHasKey_removeLeastImportantEntity hfresh)
  · rw [if_neg hc]
    exact KGInv_insert hinv _ _ _ rfl hfresh

theorem KGInv_emptyKG (me mr : Nat) : KGInv (emptyKG me mr) := by
  refine ⟨?_, ?_, ?_, ?_, ?_, ?_, ?_⟩ <;>
    simp [emptyKG, TypeIndexBucket, TypeBucketOf, AttrBucket, AttrBucketOf, alGet]

theorem runOps_inv : ∀ (ops : List KGOp) (s : KnowledgeGraph),
    KGInv s → freshSeq s ops = true → KGInv (runOps s ops) := by
  intro ops
  induction ops with
  | nil => intro s hinv _; exact hinv
  | cons op rest ih =>
      intro s hinv hfresh
      cases op with
      | addE now p =>
          simp only [freshSeq, Bool.and_eq_true] at hfresh
          exact ih (applyKGOp s (.addE now p))
            (KGInv_add_entity now p hinv (by simpa using hfresh.1)) hfresh.2
      | addR now p =>
          simp only [freshSeq, Bool.and_eq_true, true_and] at hfresh
          obtain ⟨he, ht, ha⟩ := add_relation_core now p s
          exact ih (applyKGOp s (.addR now p)) (KGInv_congr he ht ha hinv) hfresh
      | remE id =>
          simp only [freshSeq, Bool.and_eq_true, true_and] at hfresh
          exact ih (applyKGOp s (.remE id)) (KGInv_remove_entity id hinv) hfresh
      | remR id =>
          simp only [freshSeq, Bool.and_eq_true, true_and] at hfresh
          obtain ⟨he, ht, ha⟩ := remove_relation_core_fields id s
          exact ih (applyKGOp s (.remR id)) (KGInv_congr he ht ha hinv) hfresh

/-- The strengthened invariant implies the claimed consistency property. -/
theorem ClaimIndexInvariant_of_KGInv {s : KnowledgeGraph} (hinv : KGInv s) :
    ClaimIndexInvariant s := by
  refine ⟨?_, ?_, ?_⟩
  · intro k e hk
    have hid := hinv.idField k e hk
    constructor
    · rw [hid]
      exact (hinv.typeIdx k e.type).mpr ⟨e, hk, rfl⟩
    · intro av hav
      rw [hid]
      exact (hinv.attrIdx k av.1 av.2).mpr ⟨e, hk, hav⟩
  · intro q hq k hkq
    have hget : alGet q.1 s.type_index = some q.2 :=
      alGet_of_mem_nodup hinv.typeKeys (by rw [Prod.mk.eta]; exact hq)
    have hmem : k ∈ TypeIndexBucket s q.1 := by
      unfold TypeIndexBucket TypeBucketOf
      rw [hget]
      exact hkq
    obtain ⟨e, he, _⟩ := (hinv.typeIdx k q.1).mp hmem
    rw [alHasKey, he]
    rfl
  · intro q hq r hr k hkr
    have hget : alGet q.1 s.attribute_index = some q.2 :=
      alGet_of_mem_nodup hinv.attrKeys (by rw [Prod.mk.eta]; exact hq)
    have hget' : alGet r.1 q.2 = some r.2 :=
      alGet_of_mem_nodup (hinv.attrValKeys q hq) (by rw [Prod.mk.eta]; exact hr)
    have hmem : k ∈ AttrBucket s q.1 r.1 := by
      unfold AttrBucket AttrBucketOf
      rw [hget, Option.getD_some, hget']
      exact hkr
    obtain ⟨e, he, _⟩ := (hinv.attrIdx k q.1 r.1).mp hmem
    rw [alHasKey, he]
    rfl

/-! ## Claim theorems -/

/-- C5: `query` computes exactly the spec's scoring, exclusion, ordering and
truncation: name 1.0 + description 0.8 + 0.5 per matching attribute value +
type 0.3 + importance × 0.3 for entities, type 0.8 + importance × 0.2 for
relations, zero scores excluded, everything sorted descending by relevance
and truncated to `limit`.  The importance bounds of the data model (§3) make
the code's strictly-positive filter agree with the spec's "score 0
excluded". -/
theorem C5_query_matches_spec (s : KnowledgeGraph) (q : String) (limit : Nat)
    (hent : ∀ kv ∈ s.entities, 0 ≤ kv.2.importance)
    (hrel : ∀ kv ∈ s.relations, 0 ≤ kv.2.importance) :
    query s q limit = specQuery s q limit := by
  simp only [query, specQuery]
  rw [query_entity_relevance_eq_spec]
  have hfe : (s.entities.filter (fun kv =>
      decide (0 < spec_entity_relevance (lowerStr q) kv.2))) =
      (s.entities.filter (fun kv =>
      decide (spec_entity_relevance (lowerStr q) kv.2 ≠ 0))) := by
    apply List.filter_congr
    intro kv hkv
    have h0 := spec_entity_relevance_nonneg (lowerStr q) kv.2 (hent kv hkv)
    apply decide_eq_decide.mpr
    constructor
    · intro h
      exact ne_of_gt h
    · intro h
      exact lt_of_le_of_ne h0 (Ne.symm h)
  have hfr : (s.relations.filter (fun kv =>
      decide (0 < query_relation_relevance (lowerStr q) kv.2))) =
      (s.relations.filter (fun kv =>
      decide (spec_relation_relevance (lowerStr q) kv.2 ≠ 0))) := by
    apply List.filter_congr
    intro kv hkv
    have h0 := spec_relation_relevance_nonneg (lowerStr q) kv.2 (hrel kv hkv)
    rw [query_relation_relevance_eq_spec]
    apply decide_eq_decide.mpr
    constructor
    · intro h
      exact ne_of_gt h
    · intro h
      exact lt_of_le_of_ne h0 (Ne.symm h)
  rw [hfe, hfr, query_relation_relevance_eq_spec]

/-- C5 witness: the refinement instantiated at the spec's §8 scenario store. -/
theorem C5_witness :
    ((∀ kv ∈ kgPython.entities, 0 ≤ kv.2.importance)
      ∧ (∀ kv ∈ kgPython.relations, 0 ≤ kv.2.importance))
    ∧ query kgPython "python" 3 = specQuery kgPython "python" 3 :=
  ⟨⟨by with_unfolding_all decide, by with_unfolding_all decide⟩,
   C5_query_matches_spec kgPython "python" 3
     (by with_unfolding_all decide) (by with_unfolding_all decide)⟩

/-- C2 (amended): a bidirectional insert `i → j` materializes the reverse
direction **as a second keyed graph edge only**: the relation map gains just
the forward record; `remove_relation` on the forward id removes the record
and both edges; `remove_relation` on the reverse id returns `false` and
changes nothing. -/
theorem C2_bidirectional_pair_behavior (s : KnowledgeGraph) (now : Nat)
    (p : RelationPayload) (i j : String)
    (hcap : s.relations.length < s.maxRelations)
    (hsrc : p.source = some i) (htgt : p.target = some j)
    (hi : alHasKey i s.entities = true) (hj : alHasKey j s.entities = true)
    (hbid : p.bidirectional = some true)
    (hfreshRev : alGet ("reverse_" ++ ("rel_" ++ Nat.repr now)) s.relations = Option.none) :
    BidirPairSpec s now p i j := by
  have hcap' : ¬ (s.relations.length ≥ s.maxRelations) := by omega
  have hne : ("reverse_" ++ ("rel_" ++ Nat.repr now)) ≠ ("rel_" ++ Nat.repr now) :=
    reverse_prepend_ne _
  simp only [BidirPairSpec, add_relation, hsrc, htgt, hbid, hi, hj, eq_false hcap',
    if_false, Option.getD_some, Bool.and_self, if_true]
  simp only [addEdge]
  simp [alHasKey, alGet_alSet_self, alGet_alSet_ne hne, hfreshRev,
    hasEdge_edgeListSet_self, hasEdge_edgeListSet_ne (Ne.symm hne),
    remove_relation, alGet_alErase_self,
    hasEdge_removeEdge_self, hasEdge_removeEdge_ne hne, hasEdge_removeEdge_ne (Ne.symm hne)]

/-- C2 witness: the amended behaviour at the concrete two-entity store. -/
theorem C2_bidirectional_pair_witness :
    (kgTwoEntities.relations.length < kgTwoEntities.maxRelations
      ∧ alHasKey "a" kgTwoEntities.entities = true
      ∧ alHasKey "b" kgTwoEntities.entities = true
      ∧ alGet ("reverse_" ++ ("rel_" ++ Nat.repr 3)) kgTwoEntities.relations = Option.none)
    ∧ BidirPairSpec kgTwoEntities 3
        { source := some "a", target := some "b", type := some "owns",
          bidirectional := some true } "a" "b" :=
  ⟨⟨by decide, by decide, by decide, by decide⟩,
   C2_bidirectional_pair_behavior kgTwoEntities 3 _ "a" "b"
     (by decide) rfl rfl (by decide) (by decide) rfl (by decide)⟩

/-- C3 (amended): when the entity count sits exactly at `max_entities ≥ 1`
and the inserted id is fresh, `add_entity` evicts exactly one entity — one
minimizing `importance × (1 + 0.1 × access_count)` — keeps every other
entity, stores the new one, and leaves the count at `max_entities`. -/
theorem C3_eviction_with_fresh_id (s : KnowledgeGraph) (now : Nat) (p : EntityPayload)
    (hnodup : (s.entities.map Prod.fst).Nodup)
    (hcap : s.entities.length = s.maxEntities)
    (hpos : 1 ≤ s.maxEntities)
    (hfresh : alHasKey (resolveEntityId now p) s.entities = false) :
    EvictOneSpec s now p := by
  have hge : s.entities.length ≥ s.maxEntities := ge_of_eq hcap
  obtain ⟨m, hm⟩ : ∃ m, argminBy (fun kv => entityEvictionScore kv.2) s.entities = some m := by
    cases hE : s.entities with
    | nil =>
        exfalso
        rw [hE] at hcap
        simp at hcap
        omega
    | cons a rest => exact ⟨_, rfl⟩
  have hmem : m ∈ s.entities := argminBy_mem _ _ _ hm
  have hget : alGet m.1 s.entities = some m.2 := alGet_of_mem_nodup hnodup hmem
  have hnewNotMem : resolveEntityId now p ∉ s.entities.map Prod.fst := by
    intro hmem'
    rw [alHasKey] at hfresh
    have h2 := (alGet_isSome_iff _ _).mpr hmem'
    rw [hfresh] at h2
    cases h2
  have hEq := add_entity_entities_at_cap now p hge hm hget
  have heraseSub : ∀ x, x ∈ (alErase m.1 s.entities).map Prod.fst →
      x ∈ s.entities.map Prod.fst := by
    intro x hx
    rcases List.mem_map.mp hx with ⟨q, hq, rfl⟩
    exact List.mem_map.mpr ⟨q, (List.mem_filter.mp hq).1, rfl⟩
  have hnewNotErase : resolveEntityId now p ∉ (alErase m.1 s.entities).map Prod.fst :=
    fun hx => hnewNotMem (heraseSub _ hx)
  have hm1mem : m.1 ∈ s.entities.map Prod.fst := List.mem_map.mpr ⟨m, hmem, rfl⟩
  have hne1 : m.1 ≠ resolveEntityId now p := by
    intro h
    exact hnewNotMem (h ▸ hm1mem)
  refine ⟨m, hmem, fun kv hkv => argminBy_min _ _ _ hm kv hkv, ?_, ?_, ?_, ?_⟩
  · rw [hEq, alSet_of_not_mem _ hnewNotErase]
    have hlen := length_alErase_of_mem_nodup hnodup hmem
    simp only [List.length_append, List.length_cons, List.length_nil]
    omega
  · rw [hEq, alGet_alSet_ne hne1, alGet_alErase_self]
  · intro kv hkv hkvne
    have hkv1 : kv.1 ∈ s.entities.map Prod.fst := List.mem_map.mpr ⟨kv, hkv, rfl⟩
    have hne2 : kv.1 ≠ resolveEntityId now p := by
      intro h
      exact hnewNotMem (h ▸ hkv1)
    rw [alHasKey, hEq, alGet_alSet_ne hne2, alGet_alErase_ne hkvne]
    exact (alGet_isSome_iff _ _).mpr hkv1
  · rw [alHasKey, hEq, alGet_alSet_self]
    rfl

/-- C3 witness: inserting fresh id `c` into the at-capacity store evicts the
minimal-score entity and restores the count to `max_entities`. -/
theorem C3_eviction_witness :
    ((kgAtEntCap.entities.map Prod.fst).Nodup
      ∧ kgAtEntCap.entities.length = kgAtEntCap.maxEntities
      ∧ 1 ≤ kgAtEntCap.maxEntities
      ∧ alHasKey (resolveEntityId 3 { id := some "c" }) kgAtEntCap.entities = false)
    ∧ EvictOneSpec kgAtEntCap 3 { id := some "c" } :=
  ⟨⟨by decide, by decide, by decide, by decide⟩,
   C3_eviction_with_fresh_id kgAtEntCap 3 _ (by decide) (by decide) (by decide) (by decide)⟩

/-- C1: `add_relation` with a dangling endpoint on a store at
`max_relations` capacity still evicts one relation before the validation
raises, so the relation count is *not* unchanged: on the failing input it
drops from 1 to 0 (the spec's "nothing is mutated" is violated by the
code's capacity-check-before-validation ordering). -/
theorem C1_failed_insert_evicts_at_capacity :
    kgAtRelCap.maxRelations = 1 ∧
    kgAtRelCap.relations.length = 1 ∧
    alHasKey "a" kgAtRelCap.entities = true ∧
    alHasKey "zzz" kgAtRelCap.entities = false ∧
    (add_relation 4 danglingPayload kgAtRelCap).2 = Option.none ∧
    (add_relation 4 danglingPayload kgAtRelCap).1.relations.length = 0 := by
  with_unfolding_all decide

/-- C2 (counterexample): on the concrete bidirectional store, the reverse id
is not a relation record at all, and `remove_relation "reverse_rel_3"`
returns `false` and leaves the store — both edges and the forward record —
completely unchanged, refuting "calling remove_relation on either of the two
ids removes both records". -/
theorem C2_remove_by_reverse_id_removes_nothing :
    alHasKey "rel_3" kgBidir.relations = true ∧
    hasEdge kgBidir.graphEdges "a" "b" "rel_3" = true ∧
    hasEdge kgBidir.graphEdges "b" "a" "reverse_rel_3" = true ∧
    alHasKey "reverse_rel_3" kgBidir.relations = false ∧
    (remove_relation "reverse_rel_3" kgBidir).2 = false ∧
    (remove_relation "reverse_rel_3" kgBidir).1 = kgBidir := by
  with_unfolding_all decide

/-- C3 (counterexample): at entity capacity (`max_entities = 2`), inserting a
payload whose id `b` is already live evicts one entity *and* overwrites `b`,
leaving the count at 1, not at `max_entities` — refuting the claim for
stores where the inserted id is not fresh. -/
theorem C3_insert_with_live_id_breaks_capacity_claim :
    kgAtEntCap.maxEntities = 2 ∧
    kgAtEntCap.entities.length ≥ kgAtEntCap.maxEntities ∧
    alHasKey "b" kgAtEntCap.entities = true ∧
    (add_entity 3 { id := some "b", importance := some 1 } kgAtEntCap).1.entities.length = 1 := by
  with_unfolding_all decide

/-- C8: `from_dict (to_dict store)` reproduces the Entity map, the Relation
map, the type index and the attribute index exactly — ids, field values and
counts included — for every store (the timestamp ISO round-trip is lossless
and the indexes are passed through as their membership lists). -/
theorem C8_to_dict_from_dict_roundtrip (s : KnowledgeGraph) :
    (from_dict s (to_dict s)).entities = s.entities
    ∧ (from_dict s (to_dict s)).relations = s.relations
    ∧ (from_dict s (to_dict s)).type_index = s.type_index
    ∧ (from_dict s (to_dict s)).attribute_index = s.attribute_index := by
  have hent : ∀ l : List (String × Entity),
      (l.map (fun kv => (kv.1, serializeEntity kv.2))).map
          (fun kv => (kv.1, parseEntity kv.2)) = l := by
    intro l
    induction l with
    | nil => rfl
    | cons kv rest ih => simp [parseEntity_serializeEntity, ih]
  have hrel : ∀ l : List (String × Relation),
      (l.map (fun kv => (kv.1, serializeRelation kv.2))).map
          (fun kv => (kv.1, parseRelation kv.2)) = l := by
    intro l
    induction l with
    | nil => rfl
    | cons kv rest ih => simp [parseRelation_serializeRelation, ih]
  constructor
  · simp only [from_dict, to_dict, foldl_addEdge_entities, foldl_addNode_entities]
    exact hent s.entities
  constructor
  · simp only [from_dict, to_dict, foldl_addEdge_relations, foldl_addNode_relations]
    exact hrel s.relations
  constructor
  · simp only [from_dict, to_dict, foldl_addEdge_type_index, foldl_addNode_type_index]
  · simp only [from_dict, to_dict, foldl_addEdge_attribute_index, foldl_addNode_attribute_index]

/-- C10: every record returned by `query` is the merge built from a stored
entity — and then carries the literal string `"entity"` under the `"type"`
key — or the merge built from a stored relation — and then carries
`"relation"` there; in both cases the dict merge overwrote the stored type
tag in place, so `"type"` is bound exactly once and the original value is
absent from the record. -/
theorem C10_query_type_key_is_overwritten (s : KnowledgeGraph) (q : String) (limit : Nat) :
    ∀ d ∈ query s q limit,
      ((∃ kv ∈ s.entities,
          d = entityResult kv.2 (query_entity_relevance (lowerStr q) kv.2)
            ∧ alGet "type" d = some (Value.str "entity"))
        ∨ (∃ kv ∈ s.relations,
          d = relationResult s kv.2 (query_relation_relevance (lowerStr q) kv.2)
            ∧ alGet "type" d = some (Value.str "relation")))
      ∧ d.countP (fun p => p.1 == "type") = 1 := by
  intro d hmem
  have h1 : d ∈ stableSort (fun a b => decide (relevanceOf b ≤ relevanceOf a))
      ((s.entities.filter (fun kv =>
          decide (0 < query_entity_relevance (lowerStr q) kv.2))).map
        (fun kv => entityResult kv.2 (query_entity_relevance (lowerStr q) kv.2)) ++
       (s.relations.filter (fun kv =>
          decide (0 < query_relation_relevance (lowerStr q) kv.2))).map
        (fun kv => relationResult s kv.2 (query_relation_relevance (lowerStr q) kv.2))) :=
    List.take_subset _ _ hmem
  have h2 := (mem_stableSort _ _ d).mp h1
  rcases List.mem_append.mp h2 with hE | hR
  · rcases List.mem_map.mp hE with ⟨kv, hkv, rfl⟩
    exact ⟨Or.inl ⟨kv, (List.mem_filter.mp hkv).1, rfl, alGet_type_entityResult _ _⟩,
      countP_type_entityResult _ _⟩
  · rcases List.mem_map.mp hR with ⟨kv, hkv, rfl⟩
    exact ⟨Or.inr ⟨kv, (List.mem_filter.mp hkv).1, rfl, alGet_type_relationResult _ _ _⟩,
      countP_type_relationResult _ _ _⟩

/-- C10 witness: the record `query kgPython "python" 3` returns for the
`Python` entity is concretely of the overwritten entity-result shape. -/
theorem C10_witness :
    pythonDict ∈ query kgPython "python" 3
    ∧ (((∃ kv ∈ kgPython.entities,
          pythonDict = entityResult kv.2
              (query_entity_relevance (lowerStr "python") kv.2)
            ∧ alGet "type" pythonDict = some (Value.str "entity"))
        ∨ (∃ kv ∈ kgPython.relations,
          pythonDict = relationResult kgPython kv.2
              (query_relation_relevance (lowerStr "python") kv.2)
            ∧ alGet "type" pythonDict = some (Value.str "relation")))
        ∧ pythonDict.countP (fun p => p.1 == "type") = 1) := by
  have hmem : pythonDict ∈ query kgPython "python" 3 := by
    with_unfolding_all decide
  exact ⟨hmem, C10_query_type_key_is_overwritten kgPython "python" 3 pythonDict hmem⟩

/-- C6: on any graph with a directed edge `a → b` between two distinct live
entities, `find_related_entities(a, max_depth=1)` (no relation-type filter)
returns `b` with `relationship_distance = 1` and `relationship_strength =
1/(1+1) = 1/2`, and returns no entity that is neither `a` nor a direct
successor of `a` — i.e. whose shortest directed path from `a` is longer than
one hop (or absent). -/
theorem C6_find_related_depth_one (s : KnowledgeGraph) (now : Nat) (a b : String)
    (hwf : ∀ kv ∈ s.entities, kv.2.id = kv.1)
    (ha : alHasKey a s.entities = true)
    (hb : alHasKey b s.entities = true)
    (hab : b ≠ a)
    (hedge : b ∈ succsOf s.graphEdges a) :
    (∃ r ∈ (find_related_entities now a 1 s).1,
        r.entity.id = b ∧ r.relationship_distance = 1 ∧ r.relationship_strength = 1 / 2)
    ∧ (∀ c : String, c ≠ a → c ∉ succsOf s.graphEdges a →
        ∀ r ∈ (find_related_entities now a 1 s).1, r.entity.id ≠ c) := by
  have hbkeys : b ∈ s.entities.map Prod.fst := by
    rw [alHasKey] at hb
    exact (alGet_isSome_iff _ _).mp hb
  simp only [find_related_entities, ha, if_true, sspl_cutoff_one]
  obtain ⟨h1, h2, h3⟩ := frel_fold_spec now a s
    ((a, 0) :: (layerOf s.graphEdges a).map (fun v => (v, 1))) [] s hwf rfl
  constructor
  · obtain ⟨r, hrmem, hrid, hrdist, hrstr⟩ := h3 (b, 1)
      (List.mem_cons_of_mem _ (List.mem_map.mpr ⟨b, (mem_layerOf _ _ _).mpr ⟨hedge, hab⟩, rfl⟩))
      hab hbkeys (le_refl 1)
    refine ⟨r, (mem_stableSort _ _ r).mpr hrmem, hrid, hrdist, ?_⟩
    rw [hrstr]
    norm_num
  · intro c hca hcsucc r hr
    have hr' := (mem_stableSort _ _ r).mp hr
    rcases h2 r hr' with h | ⟨tp, htp, hid, _, _⟩
    · cases h
    · rcases List.mem_cons.mp htp with rfl | htp'
      · intro h
        have : a = c := by simpa using hid.symm.trans h
        exact hca this.symm
      · rcases List.mem_map.mp htp' with ⟨v, hv, rfl⟩
        have hvsucc := ((mem_layerOf _ _ _).mp hv).1
        intro h
        have hvc : v = c := by simpa using hid.symm.trans h
        rw [hvc] at hvsucc
        exact hcsucc hvsucc

/-- C6 witness: on the chain `a → b → c`, depth-1 traversal from `a`. -/
theorem C6_find_related_witness :
    ((∀ kv ∈ kgChain.entities, kv.2.id = kv.1)
      ∧ alHasKey "a" kgChain.entities = true
      ∧ alHasKey "b" kgChain.entities = true
      ∧ "b" ≠ "a"
      ∧ "b" ∈ succsOf kgChain.graphEdges "a")
    ∧ ((∃ r ∈ (find_related_entities 9 "a" 1 kgChain).1,
          r.entity.id = "b" ∧ r.relationship_distance = 1
            ∧ r.relationship_strength = 1 / 2)
      ∧ (∀ c : String, c ≠ "a" → c ∉ succsOf kgChain.graphEdges "a" →
          ∀ r ∈ (find_related_entities 9 "a" 1 kgChain).1, r.entity.id ≠ c)) :=
  ⟨⟨by decide, by decide, by decide, by decide, by decide⟩,
   C6_find_related_depth_one kgChain 9 "a" "b" (by decide) (by decide) (by decide)
     (by decide) (by decide)⟩

/-- C9: the read-style queries `find_entities_by_type`,
`find_entities_by_attribute` and `find_related_entities` mutate the store:
every entity they return is a copy whose stored record had `access_count`
incremented by one and `last_accessed` refreshed (they fetch through
`get_entity`), every store entry is either untouched or exactly so bumped,
and relations, graph edges and both indexes are unchanged. -/
theorem C9_reads_mutate_access_counters (s : KnowledgeGraph) (now : Nat)
    (hwf : ∀ kv ∈ s.entities, kv.2.id = kv.1) :
    ReadSideEffects now s := by
  have hBump : ∀ (bucket : List String) (e : Entity), bucket.Nodup →
      e ∈ (getEntitiesAcc now bucket s).1 →
      BumpedCopy now s (getEntitiesAcc now bucket s).2 e := by
    intro bucket e hnd he
    obtain ⟨spec1, _, _, _⟩ := getEntitiesAcc_spec now bucket s hnd
    obtain ⟨eid, _, old, ho, heq, hfin⟩ := spec1 e he
    have hoid : old.id = eid := hwf (eid, old) (alGet_mem ho)
    have heid : e.id = eid := by rw [heq]; exact hoid
    exact ⟨old, by rw [heid]; exact ho, heq, by rw [heid]; exact hfin⟩
  refine ⟨?_, ?_, ?_⟩
  · intro t limit bucket hb hnd
    simp only [find_entities_by_type, hb]
    obtain ⟨spec1, _, spec3, spec4⟩ := getEntitiesAcc_spec now bucket s hnd
    constructor
    · intro e he
      have he' : e ∈ (getEntitiesAcc now bucket s).1 :=
        (mem_stableSort _ _ e).mp (List.take_subset _ _ he)
      exact hBump bucket e hnd he'
    · exact ⟨spec3, spec4⟩
  · intro an av limit m bucket hm hb hnd
    simp only [find_entities_by_attribute, hm, hb]
    obtain ⟨spec1, _, spec3, spec4⟩ := getEntitiesAcc_spec now bucket s hnd
    constructor
    · intro e he
      have he' : e ∈ (getEntitiesAcc now bucket s).1 :=
        (mem_stableSort _ _ e).mp (List.take_subset _ _ he)
      exact hBump bucket e hnd he'
    · exact ⟨spec3, spec4⟩
  · intro a depth
    by_cases ha : alHasKey a s.entities = true
    · simp only [find_related_entities, ha, if_true]
      have hnd : ((single_source_shortest_path_length s.graphEdges a depth).map
          Prod.fst).Nodup := by
        apply sspl_nodup
        simp
      obtain ⟨spec1, _, spec3, spec4⟩ := frel_fold_effects now a
        (single_source_shortest_path_length s.graphEdges a depth) [] s hnd
      constructor
      · intro r hr
        have hr' := (mem_stableSort _ _ r).mp hr
        rcases spec1 r hr' with h | ⟨eid, _, old, ho, heq, hfin⟩
        · cases h
        · have hoid : old.id = eid := hwf (eid, old) (alGet_mem ho)
          have heid : r.entity.id = eid := by rw [heq]; exact hoid
          exact ⟨old, by rw [heid]; exact ho, heq, by rw [heid]; exact hfin⟩
      · exact ⟨spec3, spec4⟩
    · simp only [find_related_entities, ha]
      rw [if_neg (by simp [ha])]
      exact ⟨fun r hr => absurd hr (List.not_mem_nil _),
        fun k => Or.inl rfl, rfl, rfl, rfl, rfl⟩

/-- C9 witness: the side-effect contract instantiated on the chain store. -/
theorem C9_reads_witness :
    (∀ kv ∈ kgChain.entities, kv.2.id = kv.1) ∧ ReadSideEffects 9 kgChain :=
  ⟨by decide, C9_reads_mutate_access_counters kgChain 9 (by decide)⟩

/-- C7: once `infer(q, d)` has run on a fresh cache key, every later
`infer(q, d)` — after any sequence of entity/relation mutations, rule
additions, reads and other inferences — returns exactly the list the first
call cached: at most 10 records, de-duplicated by id (first occurrence
wins), sorted descending by relevance.  The cache is never invalidated. -/
theorem C7_infer_cache_stability (re : ReasoningEngine) (now0 : Nat) (q : String) (d : Nat)
    (hfresh : alGet (cacheKey q d) re.inference_cache = Option.none) :
    ∀ (ops : List AgentOp) (now1 : Nat),
      (infer now1 q d (execAgentOps (infer now0 q d re).2 ops)).1 = (infer now0 q d re).1
      ∧ (infer now0 q d re).1.length ≤ 10
      ∧ ((infer now0 q d re).1.map idKeyOf).Nodup
      ∧ (infer now0 q d re).1.Pairwise
          (fun x y => relevanceOf y ≤ relevanceOf x) := by
  intro ops now1
  have hbind := infer_caches now0 q d re
  have hbind2 := execAgentOps_cache_mono ops (infer now0 q d re).2 _ _ hbind
  have hmiss := infer_miss now0 hfresh
  refine ⟨?_, ?_, ?_, ?_⟩
  · rw [infer_hit now1 hbind2]
  · rw [hmiss]
    exact List.length_take_le _ _
  · rw [hmiss]
    have hnd := (dedupById_nodup (query re.knowledge_graph q 10
      ++ applyRules re.reasoning_rules q
      ++ (graphReasoning now0 q d re.knowledge_graph).1) []).1
    have hnd2 : ((stableSort (fun a b => decide (relevanceOf b ≤ relevanceOf a))
        (dedupById [] (query re.knowledge_graph q 10
          ++ applyRules re.reasoning_rules q
          ++ (graphReasoning now0 q d re.knowledge_graph).1))).map idKeyOf).Nodup := by
      have hperm := (stableSort_perm (fun a b => decide (relevanceOf b ≤ relevanceOf a))
        (dedupById [] (query re.knowledge_graph q 10
          ++ applyRules re.reasoning_rules q
          ++ (graphReasoning now0 q d re.knowledge_graph).1))).map idKeyOf
      exact hperm.nodup_iff.mpr hnd
    exact ((List.take_sublist _ _).map idKeyOf).nodup hnd2
  · rw [hmiss]
    have hs := sorted_stableSort (fun a b => decide (relevanceOf b ≤ relevanceOf a))
      (by
        intro a b hab
        simp only [decide_eq_false_iff_not, not_le] at hab
        simpa using le_of_lt hab)
      (by
        intro a b c hab hbc
        simp only [decide_eq_true_eq] at hab hbc ⊢
        exact le_trans hbc hab)
      (dedupById [] (query re.knowledge_graph q 10
        ++ applyRules re.reasoning_rules q
        ++ (graphReasoning now0 q d re.knowledge_graph).1))
    have hs2 := List.Pairwise.sublist (List.take_sublist 10 _) hs
    exact hs2.imp (fun h => by simpa using h)

/-- C7 witness: the caching contract on the concrete engine. -/
theorem C7_infer_witness :
    alGet (cacheKey "python" 3) rePython.inference_cache = Option.none
    ∧ ∀ (ops : List AgentOp) (now1 : Nat),
        (infer now1 "python" 3 (execAgentOps (infer 7 "python" 3 rePython).2 ops)).1
          = (infer 7 "python" 3 rePython).1
        ∧ (infer 7 "python" 3 rePython).1.length ≤ 10
        ∧ ((infer 7 "python" 3 rePython).1.map idKeyOf).Nodup
        ∧ (infer 7 "python" 3 rePython).1.Pairwise
            (fun x y => relevanceOf y ≤ relevanceOf x) :=
  ⟨rfl, C7_infer_cache_stability rePython 7 "python" 3 rfl⟩

/-- C4.  Starting from an empty store, along any sequence of
`add_entity`/`add_relation`/`remove_entity`/`remove_relation` calls in which
no insert reuses a currently live entity id, the claimed index consistency
holds: every stored entity is indexed under its type and attribute pairs, and
every id held anywhere in either index is a live entity. -/
theorem C4_index_invariant (me mr : Nat) (ops : List KGOp)
    (hfresh : freshSeq (emptyKG me mr) ops = true) :
    ClaimIndexInvariant (runOps (emptyKG me mr) ops) :=
  ClaimIndexInvariant_of_KGInv (runOps_inv ops (emptyKG me mr) (KGInv_emptyKG me mr) hfresh)

/-- C4 counterexample to the unconditional claim: insert `x : A`, overwrite
it as `x : B` (a live-id reuse), then remove it — `type_index["A"]` still
holds the dead id `x`. -/
theorem C4_stale_index_after_id_reuse : ¬ ClaimIndexInvariant kgStaleIndex := by
  intro h
  have hA : ("A", ["x"]) ∈ kgStaleIndex.type_index := by with_unfolding_all decide
  have hx := h.2.1 ("A", ["x"]) hA "x" (by decide)
  exact absurd hx (by with_unfolding_all decide)

theorem C4_index_invariant_witness :
    freshSeq (emptyKG 10 10)
        [.addE 1 { id := some "x", type := some "A", attributes := some [("c", "red")] },
         .addE 2 { id := some "y", type := some "B" }, .remE "x"] = true
    ∧ ClaimIndexInvariant (runOps (emptyKG 10 10)
        [.addE 1 { id := some "x", type := some "A", attributes := some [("c", "red")] },
         .addE 2 { id := some "y", type := some "B" }, .remE "x"]) :=
  ⟨by with_unfolding_all decide,
   C4_index_invariant 10 10
     [.addE 1 { id := some "x", type := some "A", attributes := some [("c", "red")] },
      .addE 2 { id := some "y", type := some "B" }, .remE "x"]
     (by with_unfolding_all decide)⟩

end AgentsChild
